import Mathlib

/-!
Verification development for the trading-core position/portfolio
accounting engine.

The TypeScript source is shallowly embedded:
* JS `number` is modelled as `ℚ` (exact rational arithmetic),
  `Date` timestamps as `ℤ`.
* JS `Map<string, V>` is modelled as an insertion-ordered association
  list `List (String × V)`; `Map.set` replaces in place or appends,
  `Map.delete` removes the entry.
* Functions that `throw` are modelled in `Except String` / `Option`.
* The optional `long?` / `short?` maps are modelled as always-present
  lists, with the empty list playing the role of the absent map
  (`pos.long ??= new Map()` is then the identity, and
  `pos.long?.get(sym)` is lookup in the empty list).
* The `averageCost` / `averageProceeds` fields of the per-symbol
  position records are modelled as `Option ℚ`: the trade-accounting
  functions (position.utils) always write them, while the crypto
  corporate-action handlers (crypto.utils) create records without
  these fields (JS `undefined`, modelled as `none`) and never update
  them on existing records.
-/

namespace TradingCore

/-- JS `Map.get`: first binding for the key, if any. -/
def mapGet {α : Type} (m : List (String × α)) (k : String) : Option α :=
  match m with
  | [] => none
  | (k', v) :: rest => if k' = k then some v else mapGet rest k

/-- JS `map.get(k) ?? d`. -/
def mapGetD {α : Type} (m : List (String × α)) (k : String) (d : α) : α :=
  (mapGet m k).getD d

/-- JS `Map.set`: replace the binding in place, else append. -/
def mapSet {α : Type} (m : List (String × α)) (k : String) (v : α) :
    List (String × α) :=
  match m with
  | [] => [(k, v)]
  | (k', v') :: rest =>
    if k' = k then (k, v) :: rest else (k', v') :: mapSet rest k v

/-- JS `Map.delete`: remove every binding for the key (maps built by
`mapSet` hold at most one). -/
def mapDel {α : Type} (m : List (String × α)) (k : String) :
    List (String × α) :=
  m.filter (fun p => p.1 ≠ k)

/-- Lot-closing strategy (`types/trade.ts` `CloseStrategy`). -/
inductive CloseStrategy where
  | FIFO
  | LIFO
deriving DecidableEq, Repr

/-! ## Data model: the `Position` variant (`types/position.ts`) -/

/-- `LongPositionLot` as used by position.utils / crypto.utils
(no per-lot timestamps in that variant). -/
structure LongLot where
  quantity : ℚ
  price : ℚ
  totalCost : ℚ
deriving DecidableEq, Repr

/-- `ShortPositionLot` of the same variant. -/
structure ShortLot where
  quantity : ℚ
  price : ℚ
  totalProceeds : ℚ
deriving DecidableEq, Repr

/-- `LongPosition` (per-symbol aggregate over lots). -/
structure LongPos where
  symbol : String
  quantity : ℚ
  totalCost : ℚ
  averageCost : Option ℚ
  realisedPnL : ℚ
  lots : List LongLot
  created : ℤ
  modified : ℤ
deriving DecidableEq, Repr

/-- `ShortPosition` (per-symbol aggregate over lots). -/
structure ShortPos where
  symbol : String
  quantity : ℚ
  totalProceeds : ℚ
  averageProceeds : Option ℚ
  realisedPnL : ℚ
  lots : List ShortLot
  created : ℤ
  modified : ℤ
deriving DecidableEq, Repr

/-- `Position`: one currency account (cash + long/short maps). -/
structure Position where
  cash : ℚ
  long : List (String × LongPos)
  short : List (String × ShortPos)
  totalCommission : ℚ
  realisedPnL : ℚ
  created : ℤ
  modified : ℤ
deriving DecidableEq, Repr

/-! ## Trade Accounting Engine (position.utils, src/unnamed/part_015) -/

/-- `validatePosition`: lot totals must match position totals
(both in the long and in the short map). -/
def validatePosition (pos : Position) : Bool :=
  (pos.long.all fun e =>
    decide ((e.2.lots.map LongLot.quantity).sum = e.2.quantity) &&
    decide ((e.2.lots.map LongLot.totalCost).sum = e.2.totalCost)) &&
  (pos.short.all fun e =>
    decide ((e.2.lots.map ShortLot.quantity).sum = e.2.quantity) &&
    decide ((e.2.lots.map ShortLot.totalProceeds).sum = e.2.totalProceeds))

/-- `openLong(pos, symbol, price, quant, comm, time)`; returns the new
state together with the (negative) cash flow. -/
def openLong (pos : Position) (symbol : String) (price quant comm : ℚ)
    (time : ℤ) : Position × ℚ :=
  let cost := price * quant + comm
  let lot : LongLot := ⟨quant, price, cost⟩
  let long :=
    match mapGet pos.long symbol with
    | none =>
      mapSet pos.long symbol
        ⟨symbol, quant, cost, some (cost / quant), 0, [lot], time, time⟩
    | some assetPos =>
      mapSet pos.long symbol
        { assetPos with
          quantity := assetPos.quantity + quant
          totalCost := assetPos.totalCost + cost
          averageCost :=
            some ((assetPos.totalCost + cost) / (assetPos.quantity + quant))
          lots := assetPos.lots ++ [lot]
          modified := time }
  ({ pos with
      cash := pos.cash - cost
      long := long
      totalCommission := pos.totalCommission + comm
      modified := time },
    -cost)

/-- The lot-consumption loop of `closeLong`, over the strategy-ordered
lot list: take `min(lot.quantity, remaining)` from each lot (stopping
once `remaining ≤ 0`), charging a fully consumed lot its exact stored
`totalCost` and a partially consumed one `totalCost / quantity × closedQty`.
Returns the updated lots (same order) and the accumulated consumed cost. -/
def consumeLongLots : List LongLot → ℚ → List LongLot × ℚ
  | [], _ => ([], 0)
  | lot :: rest, remaining =>
    if remaining ≤ 0 then (lot :: rest, 0)
    else
      let closeQty := min lot.quantity remaining
      let lotCost :=
        if closeQty = lot.quantity then lot.totalCost
        else lot.totalCost / lot.quantity * closeQty
      let tail := consumeLongLots rest (remaining - closeQty)
      ({ lot with
          quantity := lot.quantity - closeQty
          totalCost := lot.totalCost - lotCost } :: tail.1,
        lotCost + tail.2)

/-- `closeLong(pos, symbol, price, quant, comm, strat, time)`;
`none` models the thrown `No long position found` error.  Returns the
new state and the realised PnL. -/
def closeLong (pos : Position) (symbol : String) (price quant comm : ℚ)
    (strat : CloseStrategy) (time : ℤ) : Option (Position × ℚ) :=
  match mapGet pos.long symbol with
  | none => none
  | some assetPos =>
    let proceeds := price * quant - comm
    let ordered :=
      if strat = CloseStrategy.FIFO then assetPos.lots
      else assetPos.lots.reverse
    let consumed := consumeLongLots ordered quant
    let totalCost := consumed.2
    let newLots :=
      (if strat = CloseStrategy.FIFO then consumed.1
       else consumed.1.reverse).filter fun l => 0 < l.quantity
    let realisedPnL := proceeds - totalCost
    let newQty := assetPos.quantity - quant
    let assetPos' :=
      { assetPos with
        realisedPnL := assetPos.realisedPnL + realisedPnL
        quantity := newQty
        totalCost := assetPos.totalCost - totalCost
        averageCost :=
          some (if 0 < newQty then (assetPos.totalCost - totalCost) / newQty
                else 0)
        lots := newLots
        modified := time }
    let long :=
      if newLots.isEmpty then mapDel pos.long symbol
      else mapSet pos.long symbol assetPos'
    some
      ({ pos with
          cash := pos.cash + proceeds
          long := long
          totalCommission := pos.totalCommission + comm
          realisedPnL := pos.realisedPnL + realisedPnL
          modified := time },
        realisedPnL)

/-- `openShort(pos, symbol, price, quant, comm, time)`; returns the new
state together with the (positive) cash proceeds. -/
def openShort (pos : Position) (symbol : String) (price quant comm : ℚ)
    (time : ℤ) : Position × ℚ :=
  let proceeds := price * quant - comm
  let lot : ShortLot := ⟨quant, price, proceeds⟩
  let short :=
    match mapGet pos.short symbol with
    | none =>
      mapSet pos.short symbol
        ⟨symbol, quant, proceeds, some (proceeds / quant), 0, [lot],
          time, time⟩
    | some assetPos =>
      mapSet pos.short symbol
        { assetPos with
          quantity := assetPos.quantity + quant
          totalProceeds := assetPos.totalProceeds + proceeds
          averageProceeds :=
            some ((assetPos.totalProceeds + proceeds) /
              (assetPos.quantity + quant))
          lots := assetPos.lots ++ [lot]
          modified := time }
  ({ pos with
      cash := pos.cash + proceeds
      short := short
      totalCommission := pos.totalCommission + comm
      modified := time },
    proceeds)

/-- The lot-consumption loop of `closeShort` (proceeds instead of cost). -/
def consumeShortLots : List ShortLot → ℚ → List ShortLot × ℚ
  | [], _ => ([], 0)
  | lot :: rest, remaining =>
    if remaining ≤ 0 then (lot :: rest, 0)
    else
      let closeQty := min lot.quantity remaining
      let lotProceeds :=
        if closeQty = lot.quantity then lot.totalProceeds
        else lot.totalProceeds / lot.quantity * closeQty
      let tail := consumeShortLots rest (remaining - closeQty)
      ({ lot with
          quantity := lot.quantity - closeQty
          totalProceeds := lot.totalProceeds - lotProceeds } :: tail.1,
        lotProceeds + tail.2)

/-- `closeShort(pos, symbol, price, quant, comm, strat, time)`;
`none` models the thrown `No short position found` error. -/
def closeShort (pos : Position) (symbol : String) (price quant comm : ℚ)
    (strat : CloseStrategy) (time : ℤ) : Option (Position × ℚ) :=
  match mapGet pos.short symbol with
  | none => none
  | some assetPos =>
    let cost := price * quant + comm
    let ordered :=
      if strat = CloseStrategy.FIFO then assetPos.lots
      else assetPos.lots.reverse
    let consumed := consumeShortLots ordered quant
    let totalProceeds := consumed.2
    let newLots :=
      (if strat = CloseStrategy.FIFO then consumed.1
       else consumed.1.reverse).filter fun l => 0 < l.quantity
    let realisedPnL := totalProceeds - cost
    let newQty := assetPos.quantity - quant
    let assetPos' :=
      { assetPos with
        realisedPnL := assetPos.realisedPnL + realisedPnL
        quantity := newQty
        totalProceeds := assetPos.totalProceeds - totalProceeds
        averageProceeds :=
          some (if 0 < newQty then
                  (assetPos.totalProceeds - totalProceeds) / newQty
                else 0)
        lots := newLots
        modified := time }
    let short :=
      if newLots.isEmpty then mapDel pos.short symbol
      else mapSet pos.short symbol assetPos'
    some
      ({ pos with
          cash := pos.cash - cost
          short := short
          totalCommission := pos.totalCommission + comm
          realisedPnL := pos.realisedPnL + realisedPnL
          modified := time },
        realisedPnL)

/-! ## Corporate Action Processor, crypto side (src/utils/crypto.utils.ts)

These handlers operate on the same `Position` record as the trade
accounting engine but create per-symbol records without an
`averageCost` / `averageProceeds` field (modelled as `none`) and never
update that field on existing records. -/

/-- `handleHardFork(pos, symbol, newSymbol, ratio, time)`;
`Except.error` models the thrown invalid-ratio error. -/
def handleHardFork (pos : Position) (symbol newSymbol : String)
    (ratio : ℚ) (time : ℤ) : Except String Position :=
  if ratio ≤ 0 then .error "Invalid hard fork ratio"
  else
    let longEntry := mapGet pos.long symbol
    let pos1 :=
      match longEntry with
      | none => pos
      | some long =>
        let newCoins := long.quantity * ratio
        let newLot : LongLot := ⟨newCoins, 0, 0⟩
        match mapGet pos.long newSymbol with
        | none =>
          { pos with
            long := mapSet pos.long newSymbol
              ⟨newSymbol, newCoins, 0, none, 0, [newLot], time, time⟩ }
        | some newPos =>
          { pos with
            long := mapSet pos.long newSymbol
              { newPos with
                quantity := newPos.quantity + newCoins
                lots := newPos.lots ++ [newLot]
                modified := time } }
    let shortEntry := mapGet pos1.short symbol
    let pos2 :=
      match shortEntry with
      | none => pos1
      | some short =>
        let newCoins := short.quantity * ratio
        let newLot : ShortLot := ⟨newCoins, 0, 0⟩
        match mapGet pos1.short newSymbol with
        | none =>
          { pos1 with
            short := mapSet pos1.short newSymbol
              ⟨newSymbol, newCoins, 0, none, 0, [newLot], time, time⟩ }
        | some newPos =>
          { pos1 with
            short := mapSet pos1.short newSymbol
              { newPos with
                quantity := newPos.quantity + newCoins
                lots := newPos.lots ++ [newLot]
                modified := time } }
    .ok (if longEntry.isSome || shortEntry.isSome then
          { pos2 with modified := time }
        else pos2)

/-- `handleAirdrop(pos, holderSymbol, airdropSymbol, amountPerToken,
fixedAmount, time)`; `Except.error` models the thrown parameter errors. -/
def handleAirdrop (pos : Position) (holderSymbol : Option String)
    (airdropSymbol : String) (amountPerToken fixedAmount : ℚ)
    (time : ℤ) : Except String Position :=
  if holderSymbol = none ∧ fixedAmount ≤ 0 then
    .error "Either holderSymbol with amountPerToken or fixedAmount must be specified"
  else if amountPerToken < 0 then
    .error "Invalid airdrop amount"
  else
    let airdropQuantity :=
      match holderSymbol with
      | some hs =>
        match mapGet pos.long hs with
        | some long => long.quantity * amountPerToken
        | none => 0
      | none => fixedAmount
    if airdropQuantity ≤ 0 then .ok pos
    else
      let newLot : LongLot := ⟨airdropQuantity, 0, 0⟩
      let long :=
        match mapGet pos.long airdropSymbol with
        | none =>
          mapSet pos.long airdropSymbol
            ⟨airdropSymbol, airdropQuantity, 0, none, 0, [newLot],
              time, time⟩
        | some newPos =>
          mapSet pos.long airdropSymbol
            { newPos with
              quantity := newPos.quantity + airdropQuantity
              lots := newPos.lots ++ [newLot]
              modified := time }
      .ok { pos with long := long, modified := time }

/-- `handleTokenSwap(pos, oldSymbol, newSymbol, ratio, time)`;
`Except.error` models the thrown invalid-ratio error. -/
def handleTokenSwap (pos : Position) (oldSymbol newSymbol : String)
    (ratio : ℚ) (time : ℤ) : Except String Position :=
  if ratio ≤ 0 then .error "Invalid swap ratio"
  else
    let longEntry := mapGet pos.long oldSymbol
    let pos1 :=
      match longEntry with
      | none => pos
      | some long =>
        let newTokens := long.quantity * ratio
        let newLot : LongLot :=
          ⟨newTokens, long.totalCost / newTokens, long.totalCost⟩
        let longMap :=
          match mapGet pos.long newSymbol with
          | none =>
            mapSet pos.long newSymbol
              ⟨newSymbol, newLot.quantity, newLot.totalCost, none, 0,
                [newLot], time, time⟩
          | some newPos =>
            mapSet pos.long newSymbol
              { newPos with
                quantity := newPos.quantity + newLot.quantity
                totalCost := newPos.totalCost + newLot.totalCost
                lots := newPos.lots ++ [newLot]
                modified := time }
        { pos with long := mapDel longMap oldSymbol }
    let shortEntry := mapGet pos1.short oldSymbol
    let pos2 :=
      match shortEntry with
      | none => pos1
      | some short =>
        let newTokens := short.quantity * ratio
        let newLot : ShortLot :=
          ⟨newTokens, short.totalProceeds / newTokens, short.totalProceeds⟩
        let shortMap :=
          match mapGet pos1.short newSymbol with
          | none =>
            mapSet pos1.short newSymbol
              ⟨newSymbol, newLot.quantity, newLot.totalProceeds, none, 0,
                [newLot], time, time⟩
          | some newPos =>
            mapSet pos1.short newSymbol
              { newPos with
                quantity := newPos.quantity + newLot.quantity
                totalProceeds := newPos.totalProceeds + newLot.totalProceeds
                lots := newPos.lots ++ [newLot]
                modified := time }
        { pos1 with short := mapDel shortMap oldSymbol }
    .ok (if longEntry.isSome || shortEntry.isSome then
          { pos2 with modified := time }
        else pos2)

/-- `handleStakingReward(pos, symbol, rewardPerToken, time)`; returns
the new state and the reward quantity.  `Except.error` models the
thrown negative-reward error. -/
def handleStakingReward (pos : Position) (symbol : String)
    (rewardPerToken : ℚ) (time : ℤ) : Except String (Position × ℚ) :=
  if rewardPerToken < 0 then .error "Invalid reward amount"
  else
    match mapGet pos.long symbol with
    | none => .ok (pos, 0)
    | some long =>
      let rewardQuantity := long.quantity * rewardPerToken
      let rewardLot : LongLot := ⟨rewardQuantity, 0, 0⟩
      .ok
        ({ pos with
            long := mapSet pos.long symbol
              { long with
                quantity := long.quantity + rewardQuantity
                lots := long.lots ++ [rewardLot]
                modified := time }
            modified := time },
          rewardQuantity)

/-! ## Data model: the `Portfolio` variant
(`types/portfolio.ts` with per-currency maps, as used by
src/utils/stock.utils.ts and src/utils/portfolio.utils.ts). -/

/-- `LongPositionLot` of the `Portfolio` variant (with timestamps). -/
structure PLongLot where
  quantity : ℚ
  price : ℚ
  totalCost : ℚ
  created : ℤ
  modified : ℤ
deriving DecidableEq, Repr

/-- `ShortPositionLot` of the `Portfolio` variant. -/
structure PShortLot where
  quantity : ℚ
  price : ℚ
  totalProceeds : ℚ
  created : ℤ
  modified : ℤ
deriving DecidableEq, Repr

/-- `LongPosition` of the `Portfolio` variant (`averageCost` always
written by this code path). -/
structure PLongPosition where
  symbol : String
  quantity : ℚ
  totalCost : ℚ
  averageCost : ℚ
  realisedPnL : ℚ
  lots : List PLongLot
  created : ℤ
  modified : ℤ
deriving DecidableEq, Repr

/-- `ShortPosition` of the `Portfolio` variant. -/
structure PShortPosition where
  symbol : String
  quantity : ℚ
  totalProceeds : ℚ
  averageProceeds : ℚ
  realisedPnL : ℚ
  lots : List PShortLot
  created : ℤ
  modified : ℤ
deriving DecidableEq, Repr

/-- `Portfolio`: multi-currency container with cash / commission /
realised-PnL maps keyed by currency. -/
structure Portfolio where
  id : String
  name : String
  cash : List (String × ℚ)
  longPosition : List (String × PLongPosition)
  shortPosition : List (String × PShortPosition)
  totalCommission : List (String × ℚ)
  realisedPnL : List (String × ℚ)
  created : ℤ
  modified : ℤ
deriving DecidableEq, Repr

/-- `Asset` reference data; only the fields the embedded functions
read (`symbol`, `currency`) are modelled. -/
structure Asset where
  symbol : String
  currency : String
deriving DecidableEq, Repr

/-- `debit_cash` (exported as `deposit`): add to a currency balance,
creating the entry from a `?? 0` default if absent. -/
def deposit (p : Portfolio) (currency : String) (amount : ℚ) : Portfolio :=
  { p with cash := mapSet p.cash currency (mapGetD p.cash currency 0 + amount) }

/-- `credit_cash` (exported as `withdraw`): remove from a currency
balance. -/
def withdraw (p : Portfolio) (currency : String) (amount : ℚ) : Portfolio :=
  { p with cash := mapSet p.cash currency (mapGetD p.cash currency 0 - amount) }

/-- `add_commission`: accumulate commission for a currency. -/
def add_commission (p : Portfolio) (currency : String) (amount : ℚ) :
    Portfolio :=
  { p with
    totalCommission :=
      mapSet p.totalCommission currency
        (mapGetD p.totalCommission currency 0 + amount) }

/-- `openLong(p, asset, price, quant, comm, time)` of
portfolio.utils.ts; returns the new portfolio and the (negative)
cash flow. -/
def openLongPortfolio (p : Portfolio) (asset : Asset)
    (price quant comm : ℚ) (time : ℤ) : Portfolio × ℚ :=
  let cost := price * quant + comm
  let p1 := withdraw p asset.currency cost
  let lot : PLongLot := ⟨quant, price, cost, time, time⟩
  let longMap :=
    match mapGet p1.longPosition asset.symbol with
    | none =>
      mapSet p1.longPosition asset.symbol
        ⟨asset.symbol, quant, cost, cost / quant, 0, [lot], time, time⟩
    | some pos =>
      mapSet p1.longPosition asset.symbol
        { pos with
          quantity := pos.quantity + quant
          totalCost := pos.totalCost + cost
          averageCost := (pos.totalCost + cost) / (pos.quantity + quant)
          lots := pos.lots ++ [lot]
          modified := time }
  let p2 := add_commission { p1 with longPosition := longMap } asset.currency comm
  ({ p2 with modified := time }, -cost)

/-- `openShort(p, asset, price, quant, comm, time)` of
portfolio.utils.ts; returns the new portfolio and the cash proceeds. -/
def openShortPortfolio (p : Portfolio) (asset : Asset)
    (price quant comm : ℚ) (time : ℤ) : Portfolio × ℚ :=
  let proceeds := price * quant - comm
  let p1 := deposit p asset.currency proceeds
  let lot : PShortLot := ⟨quant, price, proceeds, time, time⟩
  let shortMap :=
    match mapGet p1.shortPosition asset.symbol with
    | none =>
      mapSet p1.shortPosition asset.symbol
        ⟨asset.symbol, quant, proceeds, proceeds / quant, 0, [lot],
          time, time⟩
    | some pos =>
      mapSet p1.shortPosition asset.symbol
        { pos with
          quantity := pos.quantity + quant
          totalProceeds := pos.totalProceeds + proceeds
          averageProceeds :=
            (pos.totalProceeds + proceeds) / (pos.quantity + quant)
          lots := pos.lots ++ [lot]
          modified := time }
  let p2 := add_commission { p1 with shortPosition := shortMap } asset.currency comm
  ({ p2 with modified := time }, proceeds)

/-! ## Corporate Action Processor, stock side (src/utils/stock.utils.ts) -/

/-- `handleSplit(p, asset, ratio, time)`; `Except.error` models the
thrown invalid-ratio error. -/
def handleSplit (p : Portfolio) (asset : Asset) (ratio : ℚ) (time : ℤ) :
    Except String Portfolio :=
  if ratio ≤ 0 then .error "Invalid split ratio"
  else
    let p1 :=
      match mapGet p.longPosition asset.symbol with
      | none => p
      | some long =>
        let scaleLot : PLongLot → PLongLot := fun lot =>
          { lot with quantity := lot.quantity * ratio, modified := time }
        let lots := long.lots.map scaleLot
        { p with
          longPosition := mapSet p.longPosition asset.symbol
            { long with
              lots := lots
              quantity := long.quantity * ratio
              averageCost := long.totalCost / (long.quantity * ratio)
              modified := time } }
    let p2 :=
      match mapGet p1.shortPosition asset.symbol with
      | none => p1
      | some short =>
        let scaleLot : PShortLot → PShortLot := fun lot =>
          { lot with quantity := lot.quantity * ratio, modified := time }
        let lots := short.lots.map scaleLot
        { p1 with
          shortPosition := mapSet p1.shortPosition asset.symbol
            { short with
              lots := lots
              quantity := short.quantity * ratio
              averageProceeds := short.totalProceeds / (short.quantity * ratio)
              modified := time } }
    .ok { p2 with modified := time }

/-- The per-lot loop of the long branch of `handleCashDividend`:
reduce each lot's `totalCost` by its after-tax dividend and accumulate
the total paid out. -/
def divLongLots (amountPerShare taxRate : ℚ) (time : ℤ) :
    List PLongLot → List PLongLot × ℚ
  | [] => ([], 0)
  | lot :: rest =>
    let afterTax := lot.quantity * amountPerShare * (1 - taxRate)
    let tail := divLongLots amountPerShare taxRate time rest
    let lot1 : PLongLot :=
      { lot with totalCost := lot.totalCost - afterTax, modified := time }
    (lot1 :: tail.1, afterTax + tail.2)

/-- The per-lot loop of the short branch of `handleCashDividend`:
reduce each lot's `totalProceeds` by the gross dividend owed. -/
def divShortLots (amountPerShare : ℚ) (time : ℤ) :
    List PShortLot → List PShortLot × ℚ
  | [] => ([], 0)
  | lot :: rest =>
    let divAmount := lot.quantity * amountPerShare
    let tail := divShortLots amountPerShare time rest
    let lot1 : PShortLot :=
      { lot with
        totalProceeds := lot.totalProceeds - divAmount
        modified := time }
    (lot1 :: tail.1, divAmount + tail.2)

/-- `handleCashDividend(p, asset, amountPerShare, taxRate, time)`;
returns the new portfolio and the net cash flow.  `Except.error`
models the thrown parameter errors. -/
def handleCashDividend (p : Portfolio) (asset : Asset)
    (amountPerShare taxRate : ℚ) (time : ℤ) :
    Except String (Portfolio × ℚ) :=
  if amountPerShare < 0 then .error "Invalid dividend amount"
  else if taxRate < 0 ∨ taxRate > 1 then .error "Invalid tax rate"
  else
    let step1 :=
      match mapGet p.longPosition asset.symbol with
      | none => (p, (0 : ℚ))
      | some long =>
        let paid := divLongLots amountPerShare taxRate time long.lots
        ({ p with
            longPosition := mapSet p.longPosition asset.symbol
              { long with
                lots := paid.1
                totalCost := long.totalCost - paid.2
                averageCost := (long.totalCost - paid.2) / long.quantity
                modified := time } },
          paid.2)
    let p1 := step1.1
    let step2 :=
      match mapGet p1.shortPosition asset.symbol with
      | none => (p1, step1.2)
      | some short =>
        let owed := divShortLots amountPerShare time short.lots
        ({ p1 with
            shortPosition := mapSet p1.shortPosition asset.symbol
              { short with
                lots := owed.1
                totalProceeds := short.totalProceeds - owed.2
                averageProceeds := (short.totalProceeds - owed.2) / short.quantity
                modified := time } },
          step1.2 - owed.2)
    let cashFlow := step2.2
    let p2 := deposit step2.1 asset.currency cashFlow
    .ok ({ p2 with modified := time }, cashFlow)

/-- `handleSpinoff(p, asset, newAsset, ratio, time)`; `Except.error`
models the thrown invalid-ratio error. -/
def handleSpinoff (p : Portfolio) (asset newAsset : Asset) (ratio : ℚ)
    (time : ℤ) : Except String Portfolio :=
  if ratio ≤ 0 then .error "Invalid spinoff ratio"
  else
    let p1 :=
      match mapGet p.longPosition asset.symbol with
      | none => p
      | some long =>
        let newShares := long.quantity * ratio
        let newLot : PLongLot := ⟨newShares, 0, 0, time, time⟩
        match mapGet p.longPosition newAsset.symbol with
        | none =>
          { p with
            longPosition := mapSet p.longPosition newAsset.symbol
              ⟨newAsset.symbol, newShares, 0, 0, 0, [newLot], time, time⟩ }
        | some newPos =>
          { p with
            longPosition := mapSet p.longPosition newAsset.symbol
              { newPos with
                quantity := newPos.quantity + newShares
                averageCost := newPos.totalCost / (newPos.quantity + newShares)
                lots := newPos.lots ++ [newLot]
                modified := time } }
    let p2 :=
      match mapGet p1.shortPosition asset.symbol with
      | none => p1
      | some short =>
        let newShares := short.quantity * ratio
        let newLot : PShortLot := ⟨newShares, 0, 0, time, time⟩
        match mapGet p1.shortPosition newAsset.symbol with
        | none =>
          { p1 with
            shortPosition := mapSet p1.shortPosition newAsset.symbol
              ⟨newAsset.symbol, newShares, 0, 0, 0, [newLot], time, time⟩ }
        | some newPos =>
          { p1 with
            shortPosition := mapSet p1.shortPosition newAsset.symbol
              { newPos with
                quantity := newPos.quantity + newShares
                averageProceeds :=
                  newPos.totalProceeds / (newPos.quantity + newShares)
                lots := newPos.lots ++ [newLot]
                modified := time } }
    .ok { p2 with modified := time }

/-- `handleMerger(p, asset, newAsset, ratio, cashComponent, time)`;
returns the new portfolio and the net cash flow.  `Except.error`
models the thrown parameter errors. -/
def handleMerger (p : Portfolio) (asset newAsset : Asset)
    (ratio cashComponent : ℚ) (time : ℤ) :
    Except String (Portfolio × ℚ) :=
  if ratio ≤ 0 then .error "Invalid merger ratio"
  else if cashComponent < 0 then .error "Invalid cash component"
  else
    let step1 :=
      match mapGet p.longPosition asset.symbol with
      | none => (p, (0 : ℚ))
      | some long =>
        let newShares := long.quantity * ratio
        let cashReceived := long.quantity * cashComponent
        let newCost := long.totalCost - cashReceived
        let newLot : PLongLot :=
          ⟨newShares, newCost / newShares, newCost, time, time⟩
        let longMap :=
          match mapGet p.longPosition newAsset.symbol with
          | none =>
            mapSet p.longPosition newAsset.symbol
              ⟨newAsset.symbol, newLot.quantity, newLot.totalCost,
                newLot.price, 0, [newLot], time, time⟩
          | some newPos =>
            mapSet p.longPosition newAsset.symbol
              { newPos with
                quantity := newPos.quantity + newLot.quantity
                totalCost := newPos.totalCost + newLot.totalCost
                averageCost :=
                  (newPos.totalCost + newLot.totalCost) /
                    (newPos.quantity + newLot.quantity)
                lots := newPos.lots ++ [newLot]
                modified := time }
        ({ p with longPosition := mapDel longMap asset.symbol },
          cashReceived)
    let p1 := step1.1
    let step2 :=
      match mapGet p1.shortPosition asset.symbol with
      | none => (p1, step1.2)
      | some short =>
        let newShorts := short.quantity * ratio
        let cashOwed := short.quantity * cashComponent
        let newProceeds := short.totalProceeds - cashOwed
        let newLot : PShortLot :=
          ⟨newShorts, newProceeds / newShorts, newProceeds, time, time⟩
        let shortMap :=
          match mapGet p1.shortPosition newAsset.symbol with
          | none =>
            mapSet p1.shortPosition newAsset.symbol
              ⟨newAsset.symbol, newLot.quantity, newLot.totalProceeds,
                newLot.price, 0, [newLot], time, time⟩
          | some newPos =>
            mapSet p1.shortPosition newAsset.symbol
              { newPos with
                quantity := newPos.quantity + newLot.quantity
                totalProceeds := newPos.totalProceeds + newLot.totalProceeds
                averageProceeds :=
                  (newPos.totalProceeds + newLot.totalProceeds) /
                    (newPos.quantity + newLot.quantity)
                lots := newPos.lots ++ [newLot]
                modified := time }
        ({ p1 with shortPosition := mapDel shortMap asset.symbol },
          step1.2 - cashOwed)
    let cashFlow := step2.2
    let p2 := deposit step2.1 asset.currency cashFlow
    .ok ({ p2 with modified := time }, cashFlow)

/-! ## Order Validator (src/utils/order.validation.ts / order.utils.ts) -/

/-- `positionType` tag of validation errors. -/
inductive PositionType where
  | LONG
  | SHORT
deriving DecidableEq, Repr

/-- `expectedDirection` tag of `INVALID_STOP_DIRECTION`. -/
inductive ExpectedDirection where
  | ABOVE
  | BELOW
deriving DecidableEq, Repr

/-- `OrderValidationError` (order.utils.ts), one case per tag. -/
inductive OrderValidationError where
  | INSUFFICIENT_CASH (required available : ℚ)
  | INSUFFICIENT_POSITION (symbol : String) (positionType : PositionType)
      (required available : ℚ)
  | POSITION_NOT_FOUND (symbol : String) (positionType : PositionType)
  | INVALID_PRICE (value : ℚ)
  | INVALID_QUANTITY (value : ℚ)
  | INVALID_STOP_PRICE (value : ℚ)
  | MISSING_PRICE
  | MISSING_STOP_PRICE
  | MARKET_DATA_MISSING (symbol : String)
  | INVALID_STOP_DIRECTION (stopPrice currentPrice : ℚ)
      (expectedDirection : ExpectedDirection)
deriving DecidableEq, Repr

/-- `OrderValidationResult`: `valid` flag plus optional structured error. -/
structure OrderValidationResult where
  valid : Bool
  error : Option OrderValidationError
deriving DecidableEq, Repr

/-- `OrderEffect` (side/effect coupling is not needed by the claims). -/
inductive OrderEffect where
  | OPEN_LONG
  | CLOSE_LONG
  | OPEN_SHORT
  | CLOSE_SHORT
deriving DecidableEq, Repr

/-- `OrderType`. -/
inductive OrderType where
  | MARKET
  | LIMIT
  | STOP
  | STOP_LIMIT
deriving DecidableEq, Repr

/-- `Order` intent; optional `price`/`stopPrice` are `Option ℚ`
(JS `undefined`/`null` collapse to `none`). -/
structure Order where
  symbol : String
  effect : OrderEffect
  type : OrderType
  quantity : ℚ
  price : Option ℚ
  stopPrice : Option ℚ
deriving DecidableEq, Repr

/-- `MarketSnapshot`: timestamp plus symbol → price map. -/
structure MarketSnapshot where
  timestamp : ℤ
  price : List (String × ℚ)
deriving DecidableEq, Repr

/-- `validatePriceField`: price must be present and positive. -/
def validatePriceField (price : Option ℚ) : OrderValidationResult :=
  match price with
  | none => ⟨false, some .MISSING_PRICE⟩
  | some p =>
    if p ≤ 0 then ⟨false, some (.INVALID_PRICE p)⟩
    else ⟨true, none⟩

/-- `validateStopPriceField`: stopPrice must be present and positive. -/
def validateStopPriceField (stopPrice : Option ℚ) : OrderValidationResult :=
  match stopPrice with
  | none => ⟨false, some .MISSING_STOP_PRICE⟩
  | some p =>
    if p ≤ 0 then ⟨false, some (.INVALID_STOP_PRICE p)⟩
    else ⟨true, none⟩

/-- `validateOpenLongEffect`: requires `cash ≥ price × quantity`. -/
def validateOpenLongEffect (quantity price : ℚ) (position : Position) :
    OrderValidationResult :=
  let cost := price * quantity
  if position.cash < cost then
    ⟨false, some (.INSUFFICIENT_CASH cost position.cash)⟩
  else ⟨true, none⟩

/-- `validateCloseLongEffect`: requires an existing long position of
sufficient quantity. -/
def validateCloseLongEffect (symbol : String) (quantity : ℚ)
    (position : Position) : OrderValidationResult :=
  match mapGet position.long symbol with
  | none => ⟨false, some (.POSITION_NOT_FOUND symbol .LONG)⟩
  | some longPos =>
    if longPos.quantity < quantity then
      ⟨false, some (.INSUFFICIENT_POSITION symbol .LONG quantity
        longPos.quantity)⟩
    else ⟨true, none⟩

/-- `validateOpenShortEffect`: no requirements. -/
def validateOpenShortEffect : OrderValidationResult := ⟨true, none⟩

/-- `validateCloseShortEffect`: requires sufficient short position and
cash to buy back. -/
def validateCloseShortEffect (symbol : String) (quantity price : ℚ)
    (position : Position) : OrderValidationResult :=
  match mapGet position.short symbol with
  | none => ⟨false, some (.POSITION_NOT_FOUND symbol .SHORT)⟩
  | some shortPos =>
    if shortPos.quantity < quantity then
      ⟨false, some (.INSUFFICIENT_POSITION symbol .SHORT quantity
        shortPos.quantity)⟩
    else
      let cost := price * quantity
      if position.cash < cost then
        ⟨false, some (.INSUFFICIENT_CASH cost position.cash)⟩
      else ⟨true, none⟩

/-- `validateMarketOrder`.  The JS truthiness test `!marketPrice`
treats an absent entry and a stored `0` alike. -/
def validateMarketOrder (order : Order) (position : Position)
    (snapshot : MarketSnapshot) : OrderValidationResult :=
  match mapGet snapshot.price order.symbol with
  | none => ⟨false, some (.MARKET_DATA_MISSING order.symbol)⟩
  | some marketPrice =>
    if marketPrice = 0 then ⟨false, some (.MARKET_DATA_MISSING order.symbol)⟩
    else
      match order.effect with
      | .OPEN_LONG => validateOpenLongEffect order.quantity marketPrice position
      | .CLOSE_LONG => validateCloseLongEffect order.symbol order.quantity position
      | .OPEN_SHORT => validateOpenShortEffect
      | .CLOSE_SHORT =>
        validateCloseShortEffect order.symbol order.quantity marketPrice position

/-- `validateLimitOrder`.  The source reads `order.price!` under the
caller's guarantee that it is present; the non-null assertion is
modelled by `Option.getD 0`. -/
def validateLimitOrder (order : Order) (position : Position)
    (_snapshot : MarketSnapshot) : OrderValidationResult :=
  match order.effect with
  | .OPEN_LONG =>
    validateOpenLongEffect order.quantity (order.price.getD 0) position
  | .CLOSE_LONG => validateCloseLongEffect order.symbol order.quantity position
  | .OPEN_SHORT => validateOpenShortEffect
  | .CLOSE_SHORT =>
    validateCloseShortEffect order.symbol order.quantity
      (order.price.getD 0) position

/-- `validateStopOrderDirection`: direction sanity of the stop trigger
against the snapshot price; no cash/position checks.  `!currentPrice`
again treats an absent entry and `0` alike; `order.stopPrice!` is
modelled by `Option.getD 0`. -/
def validateStopOrderDirection (order : Order) (snapshot : MarketSnapshot) :
    OrderValidationResult :=
  match mapGet snapshot.price order.symbol with
  | none => ⟨false, some (.MARKET_DATA_MISSING order.symbol)⟩
  | some currentPrice =>
    if currentPrice = 0 then ⟨false, some (.MARKET_DATA_MISSING order.symbol)⟩
    else
      let stopPrice := order.stopPrice.getD 0
      match order.effect with
      | .OPEN_LONG | .CLOSE_SHORT =>
        if stopPrice ≤ currentPrice then
          ⟨false, some (.INVALID_STOP_DIRECTION stopPrice currentPrice .ABOVE)⟩
        else ⟨true, none⟩
      | .CLOSE_LONG | .OPEN_SHORT =>
        if stopPrice ≥ currentPrice then
          ⟨false, some (.INVALID_STOP_DIRECTION stopPrice currentPrice .BELOW)⟩
        else ⟨true, none⟩

/-- `validateOrder`: quantity check, then dispatch on the order type. -/
def validateOrder (order : Order) (position : Position)
    (snapshot : MarketSnapshot) : OrderValidationResult :=
  if order.quantity ≤ 0 then
    ⟨false, some (.INVALID_QUANTITY order.quantity)⟩
  else
    match order.type with
    | .MARKET => validateMarketOrder order position snapshot
    | .LIMIT =>
      let priceValidation := validatePriceField order.price
      if !priceValidation.valid then priceValidation
      else validateLimitOrder order position snapshot
    | .STOP =>
      let stopPriceValidation := validateStopPriceField order.stopPrice
      if !stopPriceValidation.valid then stopPriceValidation
      else validateStopOrderDirection order snapshot
    | .STOP_LIMIT =>
      let priceValidation := validatePriceField order.price
      if !priceValidation.valid then priceValidation
      else
        let stopPriceValidation := validateStopPriceField order.stopPrice
        if !stopPriceValidation.valid then stopPriceValidation
        else validateStopOrderDirection order snapshot

/-! ## Specification-side definitions (for refinement statements)

`specLongCloseCost` restates, in the specification's words, the cost a
close consumes: walk the strategy-ordered lots, take
`min(lot.quantity, remaining)` from each, charge a fully consumed lot
its exact stored `totalCost` and a partially consumed one
`lot.totalCost / lot.quantity × closedQty`, and sum the charges. -/

/-- Total cost consumed by closing `remaining` units against the given
strategy-ordered lot list, per the specification's cost-allocation
rule. -/
def specLongCloseCost : List LongLot → ℚ → ℚ
  | [], _ => 0
  | lot :: rest, remaining =>
    if remaining ≤ 0 then 0
    else
      let closedQty := min lot.quantity remaining
      (if closedQty = lot.quantity then lot.totalCost
       else lot.totalCost / lot.quantity * closedQty) +
        specLongCloseCost rest (remaining - closedQty)

/-- The consumed-cost accumulator of the implementation loop agrees
with the specification's cost-allocation rule. -/
theorem consumeLongLots_snd_eq_spec (lots : List LongLot) (r : ℚ) :
    (consumeLongLots lots r).2 = specLongCloseCost lots r := by
  induction lots generalizing r with
  | nil => simp [consumeLongLots, specLongCloseCost]
  | cons lot rest ih =>
    by_cases hr : r ≤ 0
    · simp [consumeLongLots, specLongCloseCost, hr]
    · simp only [consumeLongLots, specLongCloseCost, hr, if_false, ih]

/-! ## Association-map lemmas -/

theorem mapGet_mapSet_self {α : Type} (m : List (String × α)) (k : String)
    (v : α) : mapGet (mapSet m k v) k = some v := by
  induction m with
  | nil => simp [mapSet, mapGet]
  | cons e rest ih =>
    by_cases h : e.1 = k
    · simp [mapSet, mapGet, h]
    · simp [mapSet, mapGet, h, ih]

theorem mapGet_mapSet_ne {α : Type} (m : List (String × α)) (k k' : String)
    (v : α) (h : k ≠ k') : mapGet (mapSet m k v) k' = mapGet m k' := by
  induction m with
  | nil => simp [mapSet, mapGet, h]
  | cons e rest ih =>
    by_cases he : e.1 = k
    · simp [mapSet, mapGet, he, h]
    · simp only [mapSet, mapGet, he, if_false]
      by_cases he' : e.1 = k'
      · simp [mapGet, he']
      · simp [mapGet, he', ih]

theorem mapGet_mapDel_self {α : Type} (m : List (String × α)) (k : String) :
    mapGet (mapDel m k) k = none := by
  induction m with
  | nil => simp [mapDel, mapGet]
  | cons e rest ih =>
    by_cases h : e.1 = k
    · simpa [mapDel, mapGet, h] using ih
    · simpa [mapDel, mapGet, h] using ih

theorem mapGet_mapDel_ne {α : Type} (m : List (String × α)) (k k' : String)
    (h : k ≠ k') : mapGet (mapDel m k) k' = mapGet m k' := by
  induction m with
  | nil => simp [mapDel, mapGet]
  | cons e rest ih =>
    by_cases he : e.1 = k
    · have hne : e.1 ≠ k' := by rw [he]; exact h
      have hskip : mapDel (e :: rest) k = mapDel rest k := by
        simp [mapDel, List.filter_cons, he]
      rw [hskip, ih]
      simp [mapGet, hne]
    · have hkeep : mapDel (e :: rest) k = e :: mapDel rest k := by
        simp [mapDel, List.filter_cons, he]
      by_cases he' : e.1 = k'
      · simp [hkeep, mapGet, he']
      · simp [hkeep, mapGet, he', ih]

/-- All values stored in an association map satisfy `P`. -/
def EntriesP {α : Type} (P : α → Prop) (m : List (String × α)) : Prop :=
  ∀ e ∈ m, P e.2

theorem EntriesP_nil {α : Type} (P : α → Prop) : EntriesP P [] := by
  intro e he; cases he

theorem EntriesP_get {α : Type} {P : α → Prop} {m : List (String × α)}
    {k : String} {v : α} (h : EntriesP P m) (hget : mapGet m k = some v) :
    P v := by
  induction m with
  | nil => simp [mapGet] at hget
  | cons e rest ih =>
    by_cases he : e.1 = k
    · simp only [mapGet, he, if_pos] at hget
      cases hget
      exact h e (List.mem_cons_self e rest)
    · simp only [mapGet, he, if_neg, not_false_iff] at hget
      exact ih (fun x hx => h x (List.mem_cons_of_mem e hx)) hget

theorem EntriesP_mapSet {α : Type} {P : α → Prop} {m : List (String × α)}
    {k : String} {v : α} (h : EntriesP P m) (hv : P v) :
    EntriesP P (mapSet m k v) := by
  induction m with
  | nil =>
    intro e he
    simp only [mapSet, List.mem_singleton] at he
    subst he; exact hv
  | cons hd rest ih =>
    intro e he
    by_cases hk : hd.1 = k
    · simp only [mapSet, hk, if_pos, List.mem_cons] at he
      rcases he with he | he
      · subst he; exact hv
      · exact h ⟨e.1, e.2⟩ (List.mem_cons_of_mem hd he)
    · simp only [mapSet, hk, if_neg, not_false_iff, List.mem_cons] at he
      rcases he with he | he
      · subst he; exact h hd (List.mem_cons_self hd rest)
      · exact ih (fun x hx => h x (List.mem_cons_of_mem hd hx)) e he

theorem EntriesP_mapDel {α : Type} {P : α → Prop} {m : List (String × α)}
    {k : String} (h : EntriesP P m) : EntriesP P (mapDel m k) := by
  intro e he
  exact h e (List.mem_of_mem_filter he)

/-! ## Conservation invariant for the trade accounting engine -/

/-- Well-formed long aggregate: lot sums match the stored totals and
every lot is strictly positive. -/
def goodLong (p : LongPos) : Prop :=
  (p.lots.map LongLot.quantity).sum = p.quantity ∧
  (p.lots.map LongLot.totalCost).sum = p.totalCost ∧
  ∀ lot ∈ p.lots, 0 < lot.quantity

/-- Well-formed short aggregate. -/
def goodShort (p : ShortPos) : Prop :=
  (p.lots.map ShortLot.quantity).sum = p.quantity ∧
  (p.lots.map ShortLot.totalProceeds).sum = p.totalProceeds ∧
  ∀ lot ∈ p.lots, 0 < lot.quantity

/-- Well-formed position: every entry of both maps is well formed. -/
def goodPos (pos : Position) : Prop :=
  EntriesP goodLong pos.long ∧ EntriesP goodShort pos.short

/-- A well-formed position passes the source's `validatePosition` check. -/
theorem goodPos_validate {pos : Position} (h : goodPos pos) :
    validatePosition pos = true := by
  unfold validatePosition
  rw [Bool.and_eq_true, List.all_eq_true, List.all_eq_true]
  constructor
  · intro e he
    rcases h.1 e he with ⟨h1, h2, _⟩
    simp [h1, h2]
  · intro e he
    rcases h.2 e he with ⟨h1, h2, _⟩
    simp [h1, h2]

/-- Behaviour of the long-lot consumption loop under the claim's
side conditions: quantities drop by exactly `r`, costs drop by exactly
the consumed cost, and every surviving zero-quantity lot carries zero
cost. -/
theorem consumeLongLots_sums (lots : List LongLot) (r : ℚ)
    (hr : 0 ≤ r) (hle : r ≤ (lots.map LongLot.quantity).sum)
    (hpos : ∀ lot ∈ lots, 0 < lot.quantity) :
    ((consumeLongLots lots r).1.map LongLot.quantity).sum
        = (lots.map LongLot.quantity).sum - r ∧
    ((consumeLongLots lots r).1.map LongLot.totalCost).sum
        = (lots.map LongLot.totalCost).sum - (consumeLongLots lots r).2 ∧
    ∀ lot ∈ (consumeLongLots lots r).1,
      0 ≤ lot.quantity ∧ (lot.quantity = 0 → lot.totalCost = 0) := by
  induction lots generalizing r with
  | nil =>
    simp only [List.map_nil, List.sum_nil] at hle
    have hr0 : r = 0 := le_antisymm hle hr
    subst hr0
    simp [consumeLongLots]
  | cons lot rest ih =>
    by_cases h0 : r ≤ 0
    · have hr0 : r = 0 := le_antisymm h0 hr
      subst hr0
      refine ⟨by simp [consumeLongLots], by simp [consumeLongLots], ?_⟩
      intro l hl
      simp only [consumeLongLots, le_refl, if_pos] at hl
      exact ⟨(hpos l hl).le, fun hq => absurd hq (ne_of_gt (hpos l hl))⟩
    · have hrpos : 0 < r := lt_of_not_ge h0
      have hlotpos : 0 < lot.quantity := hpos lot (List.mem_cons_self lot rest)
      have hrestpos : ∀ l ∈ rest, 0 < l.quantity :=
        fun l hl => hpos l (List.mem_cons_of_mem lot hl)
      rcases le_or_lt lot.quantity r with hfull | hpart
      · -- the lot is fully consumed
        have hmin : min lot.quantity r = lot.quantity := min_eq_left hfull
        have heq : (min lot.quantity r) = lot.quantity := hmin
        have hr1 : (0 : ℚ) ≤ r - lot.quantity := by linarith
        have hle1 : r - lot.quantity ≤ (rest.map LongLot.quantity).sum := by
          simp only [List.map_cons, List.sum_cons] at hle
          linarith
        rcases ih (r - lot.quantity) hr1 hle1 hrestpos with ⟨ihq, ihc, ihp⟩
        refine ⟨?_, ?_, ?_⟩
        · simp only [consumeLongLots, h0, if_false, hmin, heq, if_pos,
            List.map_cons, List.sum_cons, ihq]
          ring
        · simp only [consumeLongLots, h0, if_false, hmin, heq, if_pos,
            List.map_cons, List.sum_cons, ihc]
          ring
        · intro l hl
          simp only [consumeLongLots, h0, if_false, hmin, heq, if_pos,
            List.mem_cons] at hl
          rcases hl with hl | hl
          · subst hl
            constructor
            · simp
            · intro _; simp
          · exact ihp l hl
      · -- the lot is partially consumed (strictly more remains in it)
        have hmin : min lot.quantity r = r := min_eq_right hpart.le
        have hne : min lot.quantity r ≠ lot.quantity := by
          rw [hmin]; exact ne_of_lt hpart
        have hr1 : (0 : ℚ) ≤ r - r := by linarith
        have hle1 : r - r ≤ (rest.map LongLot.quantity).sum := by
          have : (0 : ℚ) ≤ (rest.map LongLot.quantity).sum := by
            apply List.sum_nonneg
            intro x hx
            rcases List.mem_map.mp hx with ⟨l, hl, hxl⟩
            exact hxl ▸ (hrestpos l hl).le
          simpa using this
        rcases ih (r - r) hr1 hle1 hrestpos with ⟨ihq, ihc, ihp⟩
        refine ⟨?_, ?_, ?_⟩
        · simp only [consumeLongLots, h0, if_false, hmin, hne, if_neg,
            not_false_iff, List.map_cons, List.sum_cons, ihq]
          ring
        · simp only [consumeLongLots, h0, if_false, hmin, hne, if_neg,
            not_false_iff, List.map_cons, List.sum_cons, ihc]
          ring
        · intro l hl
          simp only [consumeLongLots, h0, if_false, hmin, hne, if_neg,
            not_false_iff, List.mem_cons] at hl
          rcases hl with hl | hl
          · subst hl
            refine ⟨by simp; linarith, ?_⟩
            intro hq
            simp only at hq
            linarith
          · exact ihp l hl

/-- Dropping zero-quantity lots (which carry zero cost) changes
neither the quantity sum nor the cost sum. -/
theorem filter_sums_long (l : List LongLot)
    (h : ∀ lot ∈ l, 0 ≤ lot.quantity ∧ (lot.quantity = 0 → lot.totalCost = 0)) :
    (((l.filter fun x => 0 < x.quantity).map LongLot.quantity).sum
        = (l.map LongLot.quantity).sum) ∧
    (((l.filter fun x => 0 < x.quantity).map LongLot.totalCost).sum
        = (l.map LongLot.totalCost).sum) := by
  induction l with
  | nil => simp
  | cons lot rest ih =>
    have hlot := h lot (List.mem_cons_self lot rest)
    have hrest := fun x hx => h x (List.mem_cons_of_mem lot hx)
    rcases ih hrest with ⟨ihq, ihc⟩
    by_cases hp : 0 < lot.quantity
    · simp [List.filter_cons, hp, ihq, ihc]
    · have hq0 : lot.quantity = 0 := le_antisymm (le_of_not_lt hp) hlot.1
      have hc0 : lot.totalCost = 0 := hlot.2 hq0
      simp [List.filter_cons, hp, ihq, ihc, hq0, hc0]

/-- `openLong` preserves well-formedness when the opened quantity is
strictly positive. -/
theorem openLong_good {pos : Position} {symbol : String}
    {price quant comm : ℚ} {t : ℤ} (h : goodPos pos) (hq : 0 < quant) :
    goodPos (openLong pos symbol price quant comm t).1 := by
  rcases h with ⟨hl, hs⟩
  unfold openLong
  cases hget : mapGet pos.long symbol with
  | none =>
    simp only [hget]
    refine ⟨EntriesP_mapSet hl ⟨by simp, by simp, ?_⟩, hs⟩
    intro lot hlot
    simp only [List.mem_singleton] at hlot
    subst hlot
    exact hq
  | some ap =>
    simp only [hget]
    rcases EntriesP_get hl hget with ⟨h1, h2, h3⟩
    refine ⟨EntriesP_mapSet hl ⟨?_, ?_, ?_⟩, hs⟩
    · simp [h1]
    · simp [h2]
    · intro lot hlot
      rcases List.mem_append.mp hlot with hlot | hlot
      · exact h3 lot hlot
      · simp only [List.mem_singleton] at hlot
        subst hlot
        exact hq

/-- `openShort` preserves well-formedness when the opened quantity is
strictly positive. -/
theorem openShort_good {pos : Position} {symbol : String}
    {price quant comm : ℚ} {t : ℤ} (h : goodPos pos) (hq : 0 < quant) :
    goodPos (openShort pos symbol price quant comm t).1 := by
  rcases h with ⟨hl, hs⟩
  unfold openShort
  cases hget : mapGet pos.short symbol with
  | none =>
    simp only [hget]
    refine ⟨hl, EntriesP_mapSet hs ⟨by simp, by simp, ?_⟩⟩
    intro lot hlot
    simp only [List.mem_singleton] at hlot
    subst hlot
    exact hq
  | some ap =>
    simp only [hget]
    rcases EntriesP_get hs hget with ⟨h1, h2, h3⟩
    refine ⟨hl, EntriesP_mapSet hs ⟨?_, ?_, ?_⟩⟩
    · simp [h1]
    · simp [h2]
    · intro lot hlot
      rcases List.mem_append.mp hlot with hlot | hlot
      · exact h3 lot hlot
      · simp only [List.mem_singleton] at hlot
        subst hlot
        exact hq

/-- `closeLong` succeeds and preserves well-formedness when the symbol
is held and the closed quantity is strictly positive and at most the
held quantity. -/
theorem closeLong_good {pos : Position} {symbol : String}
    {price quant comm : ℚ} {strat : CloseStrategy} {t : ℤ} {ap : LongPos}
    (h : goodPos pos) (hget : mapGet pos.long symbol = some ap)
    (hq : 0 < quant) (hle : quant ≤ ap.quantity) :
    ∃ r, closeLong pos symbol price quant comm strat t = some r ∧
      goodPos r.1 := by
  rcases h with ⟨hl, hs⟩
  rcases EntriesP_get hl hget with ⟨h1, h2, h3⟩
  have hosum :
      ((if strat = CloseStrategy.FIFO then ap.lots
        else ap.lots.reverse).map LongLot.quantity).sum = ap.quantity := by
    cases strat <;> simp [List.map_reverse, List.sum_reverse, h1]
  have hocost :
      ((if strat = CloseStrategy.FIFO then ap.lots
        else ap.lots.reverse).map LongLot.totalCost).sum = ap.totalCost := by
    cases strat <;> simp [List.map_reverse, List.sum_reverse, h2]
  have hopos :
      ∀ lot ∈ (if strat = CloseStrategy.FIFO then ap.lots
        else ap.lots.reverse), 0 < lot.quantity := by
    cases strat <;> simp_all [List.mem_reverse]
  have hcons := consumeLongLots_sums
    (if strat = CloseStrategy.FIFO then ap.lots else ap.lots.reverse)
    quant hq.le (by rw [hosum]; exact hle) hopos
  rcases hcons with ⟨hcq, hcc, hcp⟩
  have hinner :
      ∀ lot ∈ (if strat = CloseStrategy.FIFO then
          (consumeLongLots (if strat = CloseStrategy.FIFO then ap.lots
            else ap.lots.reverse) quant).1
        else (consumeLongLots (if strat = CloseStrategy.FIFO then ap.lots
            else ap.lots.reverse) quant).1.reverse),
        0 ≤ lot.quantity ∧ (lot.quantity = 0 → lot.totalCost = 0) := by
    cases strat <;> simp_all [List.mem_reverse]
  have hinnerq :
      (((if strat = CloseStrategy.FIFO then
          (consumeLongLots (if strat = CloseStrategy.FIFO then ap.lots
            else ap.lots.reverse) quant).1
        else (consumeLongLots (if strat = CloseStrategy.FIFO then ap.lots
            else ap.lots.reverse) quant).1.reverse).map LongLot.quantity).sum)
        = ap.quantity - quant := by
    cases strat <;>
      simp_all [List.map_reverse, List.sum_reverse]
  have hinnerc :
      (((if strat = CloseStrategy.FIFO then
          (consumeLongLots (if strat = CloseStrategy.FIFO then ap.lots
            else ap.lots.reverse) quant).1
        else (consumeLongLots (if strat = CloseStrategy.FIFO then ap.lots
            else ap.lots.reverse) quant).1.reverse).map LongLot.totalCost).sum)
        = ap.totalCost -
            (consumeLongLots (if strat = CloseStrategy.FIFO then ap.lots
              else ap.lots.reverse) quant).2 := by
    cases strat <;>
      simp_all [List.map_reverse, List.sum_reverse]
  rcases filter_sums_long _ hinner with ⟨hfq, hfc⟩
  simp only [closeLong, hget]
  refine ⟨_, rfl, ?_⟩
  by_cases hemp :
      ((if strat = CloseStrategy.FIFO then
          (consumeLongLots (if strat = CloseStrategy.FIFO then ap.lots
            else ap.lots.reverse) quant).1
        else (consumeLongLots (if strat = CloseStrategy.FIFO then ap.lots
            else ap.lots.reverse) quant).1.reverse).filter
        fun l => 0 < l.quantity).isEmpty
  · simp only [hemp, if_true]
    exact ⟨EntriesP_mapDel hl, hs⟩
  · simp only [hemp, if_false]
    refine ⟨EntriesP_mapSet hl ⟨?_, ?_, ?_⟩, hs⟩
    · rw [hfq, hinnerq]
    · rw [hfc, hinnerc]
    · intro lot hlot
      have := List.of_mem_filter hlot
      simpa using this

/-- Mirror of `consumeLongLots_sums` for the short side. -/
theorem consumeShortLots_sums (lots : List ShortLot) (r : ℚ)
    (hr : 0 ≤ r) (hle : r ≤ (lots.map ShortLot.quantity).sum)
    (hpos : ∀ lot ∈ lots, 0 < lot.quantity) :
    ((consumeShortLots lots r).1.map ShortLot.quantity).sum
        = (lots.map ShortLot.quantity).sum - r ∧
    ((consumeShortLots lots r).1.map ShortLot.totalProceeds).sum
        = (lots.map ShortLot.totalProceeds).sum - (consumeShortLots lots r).2 ∧
    ∀ lot ∈ (consumeShortLots lots r).1,
      0 ≤ lot.quantity ∧ (lot.quantity = 0 → lot.totalProceeds = 0) := by
  induction lots generalizing r with
  | nil =>
    simp only [List.map_nil, List.sum_nil] at hle
    have hr0 : r = 0 := le_antisymm hle hr
    subst hr0
    simp [consumeShortLots]
  | cons lot rest ih =>
    by_cases h0 : r ≤ 0
    · have hr0 : r = 0 := le_antisymm h0 hr
      subst hr0
      refine ⟨by simp [consumeShortLots], by simp [consumeShortLots], ?_⟩
      intro l hl
      simp only [consumeShortLots, le_refl, if_pos] at hl
      exact ⟨(hpos l hl).le, fun hq => absurd hq (ne_of_gt (hpos l hl))⟩
    · have hrpos : 0 < r := lt_of_not_ge h0
      have hlotpos : 0 < lot.quantity := hpos lot (List.mem_cons_self lot rest)
      have hrestpos : ∀ l ∈ rest, 0 < l.quantity :=
        fun l hl => hpos l (List.mem_cons_of_mem lot hl)
      rcases le_or_lt lot.quantity r with hfull | hpart
      · have hmin : min lot.quantity r = lot.quantity := min_eq_left hfull
        have heq : (min lot.quantity r) = lot.quantity := hmin
        have hr1 : (0 : ℚ) ≤ r - lot.quantity := by linarith
        have hle1 : r - lot.quantity ≤ (rest.map ShortLot.quantity).sum := by
          simp only [List.map_cons, List.sum_cons] at hle
          linarith
        rcases ih (r - lot.quantity) hr1 hle1 hrestpos with ⟨ihq, ihc, ihp⟩
        refine ⟨?_, ?_, ?_⟩
        · simp only [consumeShortLots, h0, if_false, hmin, heq, if_pos,
            List.map_cons, List.sum_cons, ihq]
          ring
        · simp only [consumeShortLots, h0, if_false, hmin, heq, if_pos,
            List.map_cons, List.sum_cons, ihc]
          ring
        · intro l hl
          simp only [consumeShortLots, h0, if_false, hmin, heq, if_pos,
            List.mem_cons] at hl
          rcases hl with hl | hl
          · subst hl
            constructor
            · simp
            · intro _; simp
          · exact ihp l hl
      · have hmin : min lot.quantity r = r := min_eq_right hpart.le
        have hne : min lot.quantity r ≠ lot.quantity := by
          rw [hmin]; exact ne_of_lt hpart
        have hr1 : (0 : ℚ) ≤ r - r := by linarith
        have hle1 : r - r ≤ (rest.map ShortLot.quantity).sum := by
          have : (0 : ℚ) ≤ (rest.map ShortLot.quantity).sum := by
            apply List.sum_nonneg
            intro x hx
            rcases List.mem_map.mp hx with ⟨l, hl, hxl⟩
            exact hxl ▸ (hrestpos l hl).le
          simpa using this
        rcases ih (r - r) hr1 hle1 hrestpos with ⟨ihq, ihc, ihp⟩
        refine ⟨?_, ?_, ?_⟩
        · simp only [consumeShortLots, h0, if_false, hmin, hne, if_neg,
            not_false_iff, List.map_cons, List.sum_cons, ihq]
          ring
        · simp only [consumeShortLots, h0, if_false, hmin, hne, if_neg,
            not_false_iff, List.map_cons, List.sum_cons, ihc]
          ring
        · intro l hl
          simp only [consumeShortLots, h0, if_false, hmin, hne, if_neg,
            not_false_iff, List.mem_cons] at hl
          rcases hl with hl | hl
          · subst hl
            refine ⟨by simp; linarith, ?_⟩
            intro hq
            simp only at hq
            linarith
          · exact ihp l hl

/-- Mirror of `filter_sums_long` for the short side. -/
theorem filter_sums_short (l : List ShortLot)
    (h : ∀ lot ∈ l,
      0 ≤ lot.quantity ∧ (lot.quantity = 0 → lot.totalProceeds = 0)) :
    (((l.filter fun x => 0 < x.quantity).map ShortLot.quantity).sum
        = (l.map ShortLot.quantity).sum) ∧
    (((l.filter fun x => 0 < x.quantity).map ShortLot.totalProceeds).sum
        = (l.map ShortLot.totalProceeds).sum) := by
  induction l with
  | nil => simp
  | cons lot rest ih =>
    have hlot := h lot (List.mem_cons_self lot rest)
    have hrest := fun x hx => h x (List.mem_cons_of_mem lot hx)
    rcases ih hrest with ⟨ihq, ihc⟩
    by_cases hp : 0 < lot.quantity
    · simp [List.filter_cons, hp, ihq, ihc]
    · have hq0 : lot.quantity = 0 := le_antisymm (le_of_not_lt hp) hlot.1
      have hc0 : lot.totalProceeds = 0 := hlot.2 hq0
      simp [List.filter_cons, hp, ihq, ihc, hq0, hc0]

/-- Mirror of `closeLong_good` for `closeShort`. -/
theorem closeShort_good {pos : Position} {symbol : String}
    {price quant comm : ℚ} {strat : CloseStrategy} {t : ℤ} {ap : ShortPos}
    (h : goodPos pos) (hget : mapGet pos.short symbol = some ap)
    (hq : 0 < quant) (hle : quant ≤ ap.quantity) :
    ∃ r, closeShort pos symbol price quant comm strat t = some r ∧
      goodPos r.1 := by
  rcases h with ⟨hl, hs⟩
  rcases EntriesP_get hs hget with ⟨h1, h2, h3⟩
  have hosum :
      ((if strat = CloseStrategy.FIFO then ap.lots
        else ap.lots.reverse).map ShortLot.quantity).sum = ap.quantity := by
    cases strat <;> simp [List.map_reverse, List.sum_reverse, h1]
  have hopos :
      ∀ lot ∈ (if strat = CloseStrategy.FIFO then ap.lots
        else ap.lots.reverse), 0 < lot.quantity := by
    cases strat <;> simp_all [List.mem_reverse]
  have hcons := consumeShortLots_sums
    (if strat = CloseStrategy.FIFO then ap.lots else ap.lots.reverse)
    quant hq.le (by rw [hosum]; exact hle) hopos
  rcases hcons with ⟨hcq, hcc, hcp⟩
  have hinner :
      ∀ lot ∈ (if strat = CloseStrategy.FIFO then
          (consumeShortLots (if strat = CloseStrategy.FIFO then ap.lots
            else ap.lots.reverse) quant).1
        else (consumeShortLots (if strat = CloseStrategy.FIFO then ap.lots
            else ap.lots.reverse) quant).1.reverse),
        0 ≤ lot.quantity ∧ (lot.quantity = 0 → lot.totalProceeds = 0) := by
    cases strat <;> simp_all [List.mem_reverse]
  have hinnerq :
      (((if strat = CloseStrategy.FIFO then
          (consumeShortLots (if strat = CloseStrategy.FIFO then ap.lots
            else ap.lots.reverse) quant).1
        else (consumeShortLots (if strat = CloseStrategy.FIFO then ap.lots
            else ap.lots.reverse) quant).1.reverse).map ShortLot.quantity).sum)
        = ap.quantity - quant := by
    cases strat <;>
      simp_all [List.map_reverse, List.sum_reverse]
  have hinnerc :
      (((if strat = CloseStrategy.FIFO then
          (consumeShortLots (if strat = CloseStrategy.FIFO then ap.lots
            else ap.lots.reverse) quant).1
        else (consumeShortLots (if strat = CloseStrategy.FIFO then ap.lots
            else ap.lots.reverse) quant).1.reverse).map
          ShortLot.totalProceeds).sum)
        = ap.totalProceeds -
            (consumeShortLots (if strat = CloseStrategy.FIFO then ap.lots
              else ap.lots.reverse) quant).2 := by
    cases strat <;>
      simp_all [List.map_reverse, List.sum_reverse]
  rcases filter_sums_short _ hinner with ⟨hfq, hfc⟩
  simp only [closeShort, hget]
  refine ⟨_, rfl, ?_⟩
  by_cases hemp :
      ((if strat = CloseStrategy.FIFO then
          (consumeShortLots (if strat = CloseStrategy.FIFO then ap.lots
            else ap.lots.reverse) quant).1
        else (consumeShortLots (if strat = CloseStrategy.FIFO then ap.lots
            else ap.lots.reverse) quant).1.reverse).filter
        fun l => 0 < l.quantity).isEmpty
  · simp only [hemp, if_true]
    exact ⟨hl, EntriesP_mapDel hs⟩
  · simp only [hemp, if_false]
    refine ⟨hl, EntriesP_mapSet hs ⟨?_, ?_, ?_⟩⟩
    · rw [hfq, hinnerq]
    · rw [hfc, hinnerc]
    · intro lot hlot
      have := List.of_mem_filter hlot
      simpa using this

/-! ## Trade-call sequences -/

/-- One call to the trade accounting engine. -/
inductive TradeOp where
  | openL (symbol : String) (price quant comm : ℚ)
  | closeL (symbol : String) (price quant comm : ℚ) (strat : CloseStrategy)
  | openS (symbol : String) (price quant comm : ℚ)
  | closeS (symbol : String) (price quant comm : ℚ) (strat : CloseStrategy)
deriving DecidableEq, Repr

/-- Apply one call (at time 0; timestamps do not affect the lot
arithmetic); `none` models a thrown close error. -/
def applyOp (pos : Position) : TradeOp → Option Position
  | .openL s p q c => some (openLong pos s p q c 0).1
  | .closeL s p q c st => (closeLong pos s p q c st 0).map Prod.fst
  | .openS s p q c => some (openShort pos s p q c 0).1
  | .closeS s p q c st => (closeShort pos s p q c st 0).map Prod.fst

/-- The currently held long quantity of a symbol (0 when absent). -/
def heldLong (pos : Position) (s : String) : ℚ :=
  match mapGet pos.long s with
  | some p => p.quantity
  | none => 0

/-- The currently held short quantity of a symbol (0 when absent). -/
def heldShort (pos : Position) (s : String) : ℚ :=
  match mapGet pos.short s with
  | some p => p.quantity
  | none => 0

/-- The claim's stated side condition: every close requests a quantity
no greater than the symbol's currently held quantity. -/
def opRequestOK (pos : Position) : TradeOp → Prop
  | .openL _ _ _ _ => True
  | .closeL s _ q _ _ => q ≤ heldLong pos s
  | .openS _ _ _ _ => True
  | .closeS s _ q _ _ => q ≤ heldShort pos s

/-- The amended side condition: every call uses a strictly positive
quantity, and every close requests at most the held quantity. -/
def opOK (pos : Position) : TradeOp → Prop
  | .openL _ _ q _ => 0 < q
  | .closeL s _ q _ _ => 0 < q ∧ q ≤ heldLong pos s
  | .openS _ _ q _ => 0 < q
  | .closeS s _ q _ _ => 0 < q ∧ q ≤ heldShort pos s

/-- State after one call (unchanged if the call threw). -/
def stepPos (pos : Position) (op : TradeOp) : Position :=
  (applyOp pos op).getD pos

/-- State after a sequence of calls. -/
def runOps (pos : Position) : List TradeOp → Position
  | [] => pos
  | op :: rest => runOps (stepPos pos op) rest

/-- Every call of the sequence satisfies the claim's stated side
condition in the state in which it runs. -/
def RequestSeq (pos : Position) : List TradeOp → Prop
  | [] => True
  | op :: rest => opRequestOK pos op ∧ RequestSeq (stepPos pos op) rest

/-- Every call of the sequence satisfies the amended side condition in
the state in which it runs. -/
def ValidSeq (pos : Position) : List TradeOp → Prop
  | [] => True
  | op :: rest => opOK pos op ∧ ValidSeq (stepPos pos op) rest

/-- One valid call preserves well-formedness. -/
theorem stepPos_good {pos : Position} {op : TradeOp}
    (h : goodPos pos) (hop : opOK pos op) : goodPos (stepPos pos op) := by
  cases op with
  | openL s p q c =>
    simpa [stepPos, applyOp] using openLong_good h hop
  | closeL s p q c st =>
    rcases hop with ⟨hq, hle⟩
    cases hget : mapGet pos.long s with
    | none =>
      exfalso
      simp only [heldLong, hget] at hle
      linarith
    | some ap =>
      have hle2 : q ≤ ap.quantity := by
        simpa only [heldLong, hget] using hle
      rcases closeLong_good h hget hq hle2 with ⟨r, heq, hgood⟩
      simp only [stepPos, applyOp]
      rw [heq]
      simpa using hgood
  | openS s p q c =>
    simpa [stepPos, applyOp] using openShort_good h hop
  | closeS s p q c st =>
    rcases hop with ⟨hq, hle⟩
    cases hget : mapGet pos.short s with
    | none =>
      exfalso
      simp only [heldShort, hget] at hle
      linarith
    | some ap =>
      have hle2 : q ≤ ap.quantity := by
        simpa only [heldShort, hget] using hle
      rcases closeShort_good h hget hq hle2 with ⟨r, heq, hgood⟩
      simp only [stepPos, applyOp]
      rw [heq]
      simpa using hgood

/-! ## Claim C1 -/

/-- An empty position used as a concrete starting state. -/
def posEmpty : Position := ⟨0, [], [], 0, 0, 0, 0⟩

/-- C1 (amended): for every sequence of openLong/closeLong/openShort/
closeShort calls on a well-formed `Position` in which every call uses a
strictly positive quantity and every close requests at most the
symbol's currently held quantity, after every call each long entry's
lot quantities and lot totalCosts sum to the stored aggregates, and
symmetrically for short entries (`validatePosition` holds after every
prefix of the sequence). -/
theorem C1_conservation_after_every_call (start : Position)
    (ops : List TradeOp) (hstart : goodPos start)
    (hvalid : ValidSeq start ops) (n : ℕ) :
    validatePosition (runOps start (ops.take n)) = true := by
  induction ops generalizing start n with
  | nil =>
    simp only [List.take_nil, runOps]
    exact goodPos_validate hstart
  | cons op rest ih =>
    cases n with
    | zero =>
      simp only [List.take_zero, runOps]
      exact goodPos_validate hstart
    | succ m =>
      rcases hvalid with ⟨hop, hrest⟩
      simp only [List.take_succ_cons, runOps]
      exact ih (stepPos start op) (stepPos_good hstart hop) hrest m

/-- Witness for C1: a concrete valid one-call sequence from the empty
position keeps `validatePosition` true. -/
theorem C1_conservation_witness :
    validatePosition (runOps posEmpty ([TradeOp.openL "A" 1 2 0].take 1))
      = true :=
  C1_conservation_after_every_call posEmpty [TradeOp.openL "A" 1 2 0]
    ⟨EntriesP_nil goodLong, EntriesP_nil goodShort⟩
    ⟨by norm_num [opOK], trivial⟩ 1

/-- Counterexample for C1 as stated: the stated side condition only
bounds each close by the held quantity, so a close of quantity `-2`
against a held quantity of `3` is admitted; after it the aggregate
quantity is `5` while the lots still sum to `3`, so `validatePosition`
is false after the second call. -/
theorem C1_conservation_counterexample :
    RequestSeq posEmpty
      [TradeOp.openL "A" 1 3 0,
        TradeOp.closeL "A" 1 (-2) 0 CloseStrategy.FIFO] ∧
    validatePosition (runOps posEmpty
      [TradeOp.openL "A" 1 3 0,
        TradeOp.closeL "A" 1 (-2) 0 CloseStrategy.FIFO]) = false := by
  constructor
  · refine ⟨trivial, ?_, trivial⟩
    norm_num [opRequestOK, heldLong, stepPos, applyOp, openLong, mapGet,
      mapSet, posEmpty]
  · norm_num [validatePosition, runOps, stepPos, applyOp, openLong,
      closeLong, consumeLongLots, mapGet, mapSet, mapDel, posEmpty,
      List.filter, List.all]

/-! ## Claim C2 -/

/-- C2: for a held symbol and a close quantity not exceeding the held
quantity, `closeLong` consumes the lots in list order under FIFO and in
reversed order under LIFO, charging min(lot.quantity, remaining) per
lot — a fully consumed lot its exact stored totalCost, a partially
consumed one totalCost / quantity × closedQty — and returns realised
PnL = (price × quantity − commission) minus the cost so consumed
(`specLongCloseCost` restates the spec's allocation rule). -/
theorem C2_closeLong_pnl (pos : Position) (symbol : String)
    (price quant comm : ℚ) (strat : CloseStrategy) (t : ℤ) (ap : LongPos)
    (hget : mapGet pos.long symbol = some ap)
    (hq : 0 < quant) (hle : quant ≤ ap.quantity) :
    ∃ pos1, closeLong pos symbol price quant comm strat t =
      some (pos1, (price * quant - comm) -
        specLongCloseCost
          (if strat = CloseStrategy.FIFO then ap.lots else ap.lots.reverse)
          quant) := by
  simp only [closeLong, hget]
  exact ⟨_, by rw [consumeLongLots_snd_eq_spec]⟩

/-- Position used in the C2 witness: two long AAPL lots, 10@100
(commission 100) then 10@120 (commission 120), from cash 100000. -/
def posC2 : Position :=
  (openLong (openLong ⟨100000, [], [], 0, 0, 0, 0⟩ "AAPL" 100 10 100 0).1
    "AAPL" 120 10 120 0).1

/-- The AAPL entry of `posC2`. -/
def apC2 : LongPos :=
  ⟨"AAPL", 20, 2420, some 121, 0, [⟨10, 100, 1100⟩, ⟨10, 120, 1320⟩], 0, 0⟩

/-- Witness for C2: the spec's reference scenario (close 5 @ 150,
commission 150, FIFO). -/
theorem C2_closeLong_pnl_witness :
    ∃ pos1, closeLong posC2 "AAPL" 150 5 150 CloseStrategy.FIFO 0 =
      some (pos1, ((150 : ℚ) * 5 - 150) -
        specLongCloseCost
          (if CloseStrategy.FIFO = CloseStrategy.FIFO then apC2.lots
           else apC2.lots.reverse) 5) :=
  C2_closeLong_pnl posC2 "AAPL" 150 5 150 CloseStrategy.FIFO 0 apC2
    (by norm_num [posC2, apC2, openLong, mapGet, mapSet])
    (by norm_num) (by norm_num [apC2])

/-! ## Claim C4 -/

/-- Position used for C4: long 10 ETH at 100 with commission 100
(totalCost 1100, averageCost 110), cash 100000. -/
def posC4 : Position :=
  (openLong ⟨100000, [], [], 0, 0, 0, 0⟩ "ETH" 100 10 100 0).1

/-- The ETH entry after `handleStakingReward(posC4, "ETH", 0.5)`:
quantity 15 and totalCost 1100, but `averageCost` left at 110. -/
def apC4after : LongPos :=
  ⟨"ETH", 15, 1100, some 110, 0, [⟨10, 100, 1100⟩, ⟨5, 0, 0⟩], 0, 0⟩

/-- C4 (code-bug evaluation): after a staking reward adds a zero-cost
lot to a held symbol, the stored `averageCost` stays 110 while
totalCost / quantity = 1100 / 15; the crypto corporate-action handlers
never recompute the average, contradicting the repository's type
documentation and its crypto test plan (case 13 expects 73.33). -/
theorem C4_staking_reward_stale_averageCost :
    handleStakingReward posC4 "ETH" (1 / 2) 0 =
      Except.ok
        ({ posC4 with
            long := [("ETH", apC4after)]
            modified := 0 }, 5) ∧
    0 < apC4after.quantity ∧
    apC4after.averageCost ≠
      some (apC4after.totalCost / apC4after.quantity) := by
  refine ⟨?_, by norm_num [apC4after], ?_⟩
  · norm_num [handleStakingReward, posC4, apC4after, openLong, mapGet, mapSet]
  · norm_num [apC4after]

/-! ## Claim C9 -/

/-- Position used for C9: long 10 ETH (so the holder symbol is
actually held). -/
def posC9 : Position :=
  (openLong ⟨0, [], [], 0, 0, 0, 0⟩ "ETH" 100 10 0 0).1

/-- Counterexample for C9 as stated: a call that supplies a holder
symbol with per-token amount 0 (and fixed amount 0) is accepted as a
silent no-op — the state is returned unchanged instead of a parameter
error being thrown. -/
theorem C9_airdrop_counterexample :
    handleAirdrop posC9 (some "ETH") "AIR" 0 0 0 = Except.ok posC9 := by
  have hcond : ¬ ((some "ETH" : Option String) = none ∧ (0 : ℚ) ≤ 0) := by
    simp
  rw [handleAirdrop, if_neg hcond, if_neg (by norm_num : ¬ (0 : ℚ) < 0)]
  norm_num [posC9, openLong, mapGet, mapSet]

/-- C9 (amended): `handleAirdrop` throws exactly when no holder symbol
is supplied and the fixed amount is not positive, or the per-token
amount is negative; a holder symbol with per-token amount 0 is
accepted and processed as a no-op. -/
theorem C9_airdrop_error_iff (pos : Position) (holderSymbol : Option String)
    (airdropSymbol : String) (amountPerToken fixedAmount : ℚ) (t : ℤ) :
    (∃ e, handleAirdrop pos holderSymbol airdropSymbol amountPerToken
        fixedAmount t = Except.error e) ↔
      ((holderSymbol = none ∧ fixedAmount ≤ 0) ∨ amountPerToken < 0) := by
  unfold handleAirdrop
  split_ifs with h1 h2
  · exact ⟨fun _ => Or.inl h1, fun _ => ⟨_, rfl⟩⟩
  · exact ⟨fun _ => Or.inr h2, fun _ => ⟨_, rfl⟩⟩
  · have hRHS :
        ¬ ((holderSymbol = none ∧ fixedAmount ≤ 0) ∨ amountPerToken < 0) := by
      rintro (h | h)
      · exact h1 h
      · exact h2 h
    simp only [hRHS, iff_false, not_exists]
    intro e he
    split at he <;> simp at he

/-! ## Claim C7 -/

/-- Consuming a zero quantity leaves the lots untouched. -/
theorem consumeLongLots_zero (l : List LongLot) :
    consumeLongLots l 0 = (l, 0) := by
  cases l <;> simp [consumeLongLots]

/-- Consuming exactly the head lot's quantity charges exactly its
stored totalCost. -/
theorem consumeLongLots_head_exact (q p c : ℚ) (rest : List LongLot)
    (hq : 0 < q) :
    (consumeLongLots (LongLot.mk q p c :: rest) q).2 = c := by
  simp [consumeLongLots, not_le.mpr hq, min_self, consumeLongLots_zero]

/-- After `openLong`, the symbol's entry exists, its lot list ends with
the freshly appended lot, and cash dropped by the full cost. -/
theorem openLong_entry (pos : Position) (symbol : String)
    (price quant comm : ℚ) (t : ℤ) :
    ∃ ap, mapGet (openLong pos symbol price quant comm t).1.long symbol
        = some ap ∧
      ap.lots = (match mapGet pos.long symbol with
        | none => ([] : List LongLot)
        | some a => a.lots) ++ [LongLot.mk quant price (price * quant + comm)] ∧
      (openLong pos symbol price quant comm t).1.cash
        = pos.cash - (price * quant + comm) := by
  cases hget : mapGet pos.long symbol with
  | none =>
    refine ⟨⟨symbol, quant, price * quant + comm,
      some ((price * quant + comm) / quant), 0,
      [LongLot.mk quant price (price * quant + comm)], t, t⟩, ?_, ?_, ?_⟩
    · simp [openLong, hget, mapGet_mapSet_self]
    · simp [hget]
    · simp [openLong]
  | some a =>
    refine ⟨⟨a.symbol, a.quantity + quant,
      a.totalCost + (price * quant + comm),
      some ((a.totalCost + (price * quant + comm)) / (a.quantity + quant)),
      a.realisedPnL,
      a.lots ++ [LongLot.mk quant price (price * quant + comm)],
      a.created, t⟩, ?_, ?_, ?_⟩
    · simp [openLong, hget, mapGet_mapSet_self]
    · simp [hget]
    · simp [openLong]

/-- C7 (amended): opening then immediately closing the same quantity
at the same price with zero commission always restores cash (any
position, either strategy), and the close's realised PnL is exactly 0
under LIFO for every position, and under either strategy whenever the
position held no long lots of the symbol before the open.  (Under FIFO
with pre-existing lots the close consumes the old lots first, so the
PnL is their cost difference instead.) -/
theorem C7_round_trip (pos : Position) (symbol : String)
    (price quant : ℚ) (strat : CloseStrategy)
    (hp : 0 < price) (hq : 0 < quant) :
    (∀ strat2 : CloseStrategy, ∃ r,
      closeLong (openLong pos symbol price quant 0 0).1 symbol price quant 0
          strat2 0 = some r ∧ r.1.cash = pos.cash) ∧
    ((strat = CloseStrategy.LIFO ∨ mapGet pos.long symbol = none) →
      ∃ r,
        closeLong (openLong pos symbol price quant 0 0).1 symbol price quant 0
          strat 0 = some r ∧ r.2 = 0 ∧ r.1.cash = pos.cash) := by
  obtain ⟨ap, hget, hlots, hcash⟩ := openLong_entry pos symbol price quant 0 0
  constructor
  · intro strat2
    simp only [closeLong, hget]
    refine ⟨_, rfl, ?_⟩
    simp only [hcash]
    ring
  · intro hcase
    have hmain : ∃ tail,
        (if strat = CloseStrategy.FIFO then ap.lots else ap.lots.reverse)
          = LongLot.mk quant price (price * quant + 0) :: tail := by
      rcases hcase with hlifo | hnone
      · subst hlifo
        refine ⟨(match mapGet pos.long symbol with
          | none => ([] : List LongLot)
          | some a => a.lots).reverse, ?_⟩
        simp [hlots]
      · have hone : ap.lots = [LongLot.mk quant price (price * quant + 0)] := by
          rw [hlots, hnone]
          rfl
        cases strat <;> exact ⟨[], by simp [hone]⟩
    obtain ⟨tail, htail⟩ := hmain
    simp only [closeLong, hget, htail]
    refine ⟨_, rfl, ?_, ?_⟩
    · show (price * quant - 0) -
        (consumeLongLots (LongLot.mk quant price (price * quant + 0) :: tail)
          quant).2 = 0
      rw [consumeLongLots_head_exact _ _ _ _ hq]
      ring
    · show (openLong pos symbol price quant 0 0).1.cash +
        (price * quant - 0) = pos.cash
      rw [hcash]
      ring

/-- Witness for C7: price 100, quantity 10 from the empty position
under FIFO. -/
theorem C7_round_trip_witness :
    (∀ strat2 : CloseStrategy, ∃ r,
      closeLong (openLong posEmpty "W" 100 10 0 0).1 "W" 100 10 0
          strat2 0 = some r ∧ r.1.cash = posEmpty.cash) ∧
    ((CloseStrategy.FIFO = CloseStrategy.LIFO ∨
        mapGet posEmpty.long "W" = none) →
      ∃ r,
        closeLong (openLong posEmpty "W" 100 10 0 0).1 "W" 100 10 0
          CloseStrategy.FIFO 0 = some r ∧ r.2 = 0 ∧
          r.1.cash = posEmpty.cash) :=
  C7_round_trip posEmpty "W" 100 10 CloseStrategy.FIFO (by norm_num)
    (by norm_num)

/-- Position already holding a cheaper lot of symbol A. -/
def posC7 : Position :=
  ⟨0, [("A", ⟨"A", 10, 500, some 50, 0, [⟨10, 50, 500⟩], 0, 0⟩)], [],
    0, 0, 0, 0⟩

/-- Counterexample for C7 as stated: on a position already holding a
lot of the symbol at a lower basis, open-then-close of quantity 10 at
price 100 with zero commission under FIFO consumes the older lot, so
the close returns realised PnL 500, not 0. -/
theorem C7_round_trip_counterexample :
    (closeLong (openLong posC7 "A" 100 10 0 0).1 "A" 100 10 0
        CloseStrategy.FIFO 0).map Prod.snd = some 500 ∧ (500 : ℚ) ≠ 0 := by
  constructor
  · norm_num [closeLong, openLong, posC7, mapGet, mapSet, mapDel,
      consumeLongLots, List.filter]
  · norm_num

/-! ## Claim C3 -/

/-- C3 (amended): on a symbol with no long and no short position and
with valid parameters, no corporate action handler throws; the crypto
handlers (hard fork, token swap, staking reward) leave the `Position`
entirely unchanged, while the stock handlers (split, cash dividend,
spinoff, merger) leave every position entry, every cash balance, the
commission and realised-PnL maps unchanged but do set the portfolio's
`modified` timestamp (and the dividend/merger handlers rewrite the
asset currency's cash entry with its current value, creating a
zero-balance entry if absent). -/
theorem C3_no_position_frame (pos : Position) (p : Portfolio)
    (a na : Asset) (s ns : String)
    (ratio cashComponent amountPerShare taxRate rewardPerToken : ℚ)
    (t : ℤ)
    (hratio : 0 < ratio) (hcc : 0 ≤ cashComponent)
    (haps : 0 ≤ amountPerShare) (htr0 : 0 ≤ taxRate) (htr1 : taxRate ≤ 1)
    (hrpt : 0 ≤ rewardPerToken)
    (hlong : mapGet pos.long s = none) (hshort : mapGet pos.short s = none)
    (hplong : mapGet p.longPosition a.symbol = none)
    (hpshort : mapGet p.shortPosition a.symbol = none) :
    handleHardFork pos s ns ratio t = Except.ok pos ∧
    handleTokenSwap pos s ns ratio t = Except.ok pos ∧
    handleStakingReward pos s rewardPerToken t = Except.ok (pos, 0) ∧
    handleSplit p a ratio t = Except.ok { p with modified := t } ∧
    handleSpinoff p a na ratio t = Except.ok { p with modified := t } ∧
    handleCashDividend p a amountPerShare taxRate t =
      Except.ok
        ({ p with
            cash := mapSet p.cash a.currency (mapGetD p.cash a.currency 0)
            modified := t }, 0) ∧
    handleMerger p a na ratio cashComponent t =
      Except.ok
        ({ p with
            cash := mapSet p.cash a.currency (mapGetD p.cash a.currency 0)
            modified := t }, 0) := by
  have hnr : ¬ ratio ≤ 0 := not_le.mpr hratio
  have hncc : ¬ cashComponent < 0 := not_lt.mpr hcc
  have hnaps : ¬ amountPerShare < 0 := not_lt.mpr haps
  have hntr : ¬ (taxRate < 0 ∨ taxRate > 1) := by
    push_neg
    exact ⟨htr0, htr1⟩
  have hnrpt : ¬ rewardPerToken < 0 := not_lt.mpr hrpt
  refine ⟨?_, ?_, ?_, ?_, ?_, ?_, ?_⟩
  · simp [handleHardFork, hnr, hlong, hshort]
  · simp [handleTokenSwap, hnr, hlong, hshort]
  · simp [handleStakingReward, hnrpt, hlong]
  · simp [handleSplit, hnr, hplong, hpshort]
  · simp [handleSpinoff, hnr, hplong, hpshort]
  · simp [handleCashDividend, hnaps, hntr, hplong, hpshort, deposit]
  · simp [handleMerger, hnr, hncc, hplong, hpshort, deposit]

/-- Portfolio and position used in the C3 counterexample and witness. -/
def pfC3 : Portfolio := ⟨"id", "name", [], [], [], [], [], 0, 0⟩

/-- Asset used in the C3 counterexample and witness. -/
def assetC3 : Asset := ⟨"T", "USD"⟩

/-- Second asset for the C3 witness. -/
def assetC3b : Asset := ⟨"N", "USD"⟩

/-- Counterexample for C3 as stated: `handleSplit` on a symbol with no
position still sets the portfolio's `modified` timestamp, so the state
is not entirely unchanged. -/
theorem C3_no_position_counterexample :
    mapGet pfC3.longPosition "T" = none ∧
    mapGet pfC3.shortPosition "T" = none ∧
    handleSplit pfC3 assetC3 2 1 = Except.ok { pfC3 with modified := 1 } ∧
    ({ pfC3 with modified := 1 } : Portfolio) ≠ pfC3 := by
  refine ⟨rfl, rfl, ?_, ?_⟩
  · norm_num [handleSplit, pfC3, assetC3, mapGet]
  · simp [pfC3]

/-- Witness for C3: the amended frame conditions at the concrete empty
portfolio and position. -/
theorem C3_no_position_witness :
    handleHardFork posEmpty "T" "N" 2 1 = Except.ok posEmpty ∧
    handleTokenSwap posEmpty "T" "N" 2 1 = Except.ok posEmpty ∧
    handleStakingReward posEmpty "T" (1 / 2) 1 = Except.ok (posEmpty, 0) ∧
    handleSplit pfC3 assetC3 2 1 = Except.ok { pfC3 with modified := 1 } ∧
    handleSpinoff pfC3 assetC3 assetC3b 2 1 =
      Except.ok { pfC3 with modified := 1 } ∧
    handleCashDividend pfC3 assetC3 3 (1 / 10) 1 =
      Except.ok
        ({ pfC3 with
            cash := mapSet pfC3.cash assetC3.currency
              (mapGetD pfC3.cash assetC3.currency 0)
            modified := 1 }, 0) ∧
    handleMerger pfC3 assetC3 assetC3b 2 10 1 =
      Except.ok
        ({ pfC3 with
            cash := mapSet pfC3.cash assetC3.currency
              (mapGetD pfC3.cash assetC3.currency 0)
            modified := 1 }, 0) :=
  C3_no_position_frame posEmpty pfC3 assetC3 assetC3b "T" "N" 2 10 3 (1 / 10)
    (1 / 2) 1 (by norm_num) (by norm_num) (by norm_num) (by norm_num)
    (by norm_num) (by norm_num) rfl rfl rfl rfl

/-! ## Claim C8 -/

/-- Held long quantity of a symbol in a portfolio (0 when absent). -/
def heldLongP (p : Portfolio) (s : String) : ℚ :=
  match mapGet p.longPosition s with
  | some l => l.quantity
  | none => 0

/-- Stored long totalCost of a symbol in a portfolio (0 when absent). -/
def costLongP (p : Portfolio) (s : String) : ℚ :=
  match mapGet p.longPosition s with
  | some l => l.totalCost
  | none => 0

/-- C8 (amended): for a portfolio holding a long position in the target
symbol and no short position in it, with an acquirer symbol distinct
from the target, ratio > 0 and cashComponent ≥ 0, `handleMerger`
deletes the target's entry, increases the acquirer's quantity by
oldQty × ratio and its totalCost by oldTotalCost − oldQty ×
cashComponent (creating the entry if absent), and adds oldQty ×
cashComponent to the asset currency's cash balance; the returned cash
flow is oldQty × cashComponent. -/
theorem C8_merger (p : Portfolio) (a na : Asset)
    (ratio cashComponent : ℚ) (t : ℤ) (long : PLongPosition)
    (hlong : mapGet p.longPosition a.symbol = some long)
    (hshort : mapGet p.shortPosition a.symbol = none)
    (hne : na.symbol ≠ a.symbol)
    (hratio : 0 < ratio) (hcc : 0 ≤ cashComponent) :
    ∃ r, handleMerger p a na ratio cashComponent t = Except.ok r ∧
      r.2 = long.quantity * cashComponent ∧
      mapGet r.1.longPosition a.symbol = none ∧
      heldLongP r.1 na.symbol
        = heldLongP p na.symbol + long.quantity * ratio ∧
      costLongP r.1 na.symbol
        = costLongP p na.symbol +
            (long.totalCost - long.quantity * cashComponent) ∧
      mapGetD r.1.cash a.currency 0
        = mapGetD p.cash a.currency 0 + long.quantity * cashComponent := by
  have hnr : ¬ ratio ≤ 0 := not_le.mpr hratio
  have hncc : ¬ cashComponent < 0 := not_lt.mpr hcc
  have hne' : a.symbol ≠ na.symbol := Ne.symm hne
  cases hacq : mapGet p.longPosition na.symbol with
  | none =>
    apply Exists.intro
    refine ⟨?_, ?_, ?_, ?_, ?_, ?_⟩
    · simp only [handleMerger, hnr, if_false, hncc, hlong, hshort, hacq,
        deposit]
      exact rfl
    · rfl
    · exact mapGet_mapDel_self _ _
    · simp only [heldLongP, mapGet_mapDel_ne _ _ _ hne',
        mapGet_mapSet_self, hacq]
      ring
    · simp only [costLongP, mapGet_mapDel_ne _ _ _ hne',
        mapGet_mapSet_self, hacq]
      ring
    · simp only [mapGetD, mapGet_mapSet_self, Option.getD_some]
  | some acq =>
    apply Exists.intro
    refine ⟨?_, ?_, ?_, ?_, ?_, ?_⟩
    · simp only [handleMerger, hnr, if_false, hncc, hlong, hshort, hacq,
        deposit]
      exact rfl
    · rfl
    · exact mapGet_mapDel_self _ _
    · simp only [heldLongP, mapGet_mapDel_ne _ _ _ hne',
        mapGet_mapSet_self, hacq]
    · simp only [costLongP, mapGet_mapDel_ne _ _ _ hne',
        mapGet_mapSet_self, hacq]
    · simp only [mapGetD, mapGet_mapSet_self, Option.getD_some]

/-- Long TARGET entry used by the C8 counterexample. -/
def longC8 : PLongPosition :=
  ⟨"TARGET", 10, 1100, 110, 0, [⟨10, 100, 1100, 0, 0⟩], 0, 0⟩

/-- Short TARGET entry used by the C8 counterexample. -/
def shortC8 : PShortPosition :=
  ⟨"TARGET", 5, 400, 80, 0, [⟨5, 80, 400, 0, 0⟩], 0, 0⟩

/-- Portfolio long 10 and short 5 TARGET, cash 0 USD. -/
def pfC8 : Portfolio :=
  ⟨"id", "n", [("USD", 0)], [("TARGET", longC8)], [("TARGET", shortC8)],
    [], [], 0, 0⟩

/-- The target asset of the C8 scenario. -/
def aC8 : Asset := ⟨"TARGET", "USD"⟩

/-- The acquirer asset of the C8 scenario. -/
def naC8 : Asset := ⟨"ACQUIRER", "USD"⟩

/-- Counterexample for C8 as stated: a portfolio holding the target
long (10) and also short (5); the merger with cashComponent 10 changes
cash by 10×10 − 5×10 = 50, not by oldQty × cashComponent = 100. -/
theorem C8_merger_counterexample :
    mapGet pfC8.longPosition "TARGET" = some longC8 ∧
    (handleMerger pfC8 aC8 naC8 2 10 0).map
      (fun r => mapGetD r.1.cash "USD" 0) = Except.ok 50 ∧
    longC8.quantity * 10 ≠ (50 : ℚ) := by
  refine ⟨rfl, ?_, by norm_num [longC8]⟩
  norm_num [handleMerger, pfC8, aC8, naC8, longC8, shortC8, deposit,
    mapGet, mapSet, mapDel, mapGetD, List.filter]
  rfl

/-- Portfolio for the C8 witness: long TARGET opened at (100, 10,
commission 100) from 100000 USD cash. -/
def pfW8 : Portfolio :=
  (openLongPortfolio ⟨"id", "n", [("USD", 100000)], [], [], [], [], 0, 0⟩
    aC8 100 10 100 0).1

/-- The TARGET entry of `pfW8`. -/
def longW8 : PLongPosition :=
  ⟨"TARGET", 10, 1100, 110, 0, [⟨10, 100, 1100, 0, 0⟩], 0, 0⟩

/-- Witness for C8: the spec's reference scenario (ratio 2,
cashComponent 10 on a long opened at (100, 10, 100)). -/
theorem C8_merger_witness :
    ∃ r, handleMerger pfW8 aC8 naC8 2 10 0 = Except.ok r ∧
      r.2 = longW8.quantity * 10 ∧
      mapGet r.1.longPosition aC8.symbol = none ∧
      heldLongP r.1 naC8.symbol
        = heldLongP pfW8 naC8.symbol + longW8.quantity * 2 ∧
      costLongP r.1 naC8.symbol
        = costLongP pfW8 naC8.symbol +
            (longW8.totalCost - longW8.quantity * 10) ∧
      mapGetD r.1.cash aC8.currency 0
        = mapGetD pfW8.cash aC8.currency 0 + longW8.quantity * 10 :=
  C8_merger pfW8 aC8 naC8 2 10 0 longW8
    (by norm_num [pfW8, longW8, aC8, openLongPortfolio, withdraw,
      add_commission, mapGet, mapSet, mapGetD])
    (by norm_num [pfW8, aC8, openLongPortfolio, withdraw, add_commission,
      mapGet, mapSet, mapGetD])
    (by simp [aC8, naC8]) (by norm_num) (by norm_num)

/-! ## Claim C6 -/

/-- A validation result is well formed when it is valid with no error
or invalid carrying exactly one error. -/
def resultWF (r : OrderValidationResult) : Prop :=
  (r.valid = true ∧ r.error = none) ∨
  (r.valid = false ∧ ∃ e, r.error = some e)

theorem resultWF_validatePriceField (p : Option ℚ) :
    resultWF (validatePriceField p) := by
  cases p with
  | none => simp [validatePriceField, resultWF]
  | some v =>
    simp only [validatePriceField]
    split_ifs <;> simp [resultWF]

theorem resultWF_validateStopPriceField (p : Option ℚ) :
    resultWF (validateStopPriceField p) := by
  cases p with
  | none => simp [validateStopPriceField, resultWF]
  | some v =>
    simp only [validateStopPriceField]
    split_ifs <;> simp [resultWF]

theorem resultWF_validateOpenLongEffect (q pr : ℚ) (position : Position) :
    resultWF (validateOpenLongEffect q pr position) := by
  simp only [validateOpenLongEffect]
  split_ifs <;> simp [resultWF]

theorem resultWF_validateCloseLongEffect (s : String) (q : ℚ)
    (position : Position) : resultWF (validateCloseLongEffect s q position) := by
  cases hget : mapGet position.long s with
  | none => simp [validateCloseLongEffect, hget, resultWF]
  | some lp =>
    simp only [validateCloseLongEffect, hget]
    split_ifs <;> simp [resultWF]

theorem resultWF_validateCloseShortEffect (s : String) (q pr : ℚ)
    (position : Position) :
    resultWF (validateCloseShortEffect s q pr position) := by
  cases hget : mapGet position.short s with
  | none => simp [validateCloseShortEffect, hget, resultWF]
  | some sp2 =>
    simp only [validateCloseShortEffect, hget]
    split_ifs <;> simp [resultWF]

theorem resultWF_validateMarketOrder (order : Order) (position : Position)
    (snapshot : MarketSnapshot) :
    resultWF (validateMarketOrder order position snapshot) := by
  cases hget : mapGet snapshot.price order.symbol with
  | none => simp [validateMarketOrder, hget, resultWF]
  | some mp =>
    by_cases h0 : mp = 0
    · simp [validateMarketOrder, hget, h0, resultWF]
    · simp only [validateMarketOrder, hget, h0, if_false]
      cases order.effect
      · exact resultWF_validateOpenLongEffect _ _ _
      · exact resultWF_validateCloseLongEffect _ _ _
      · simp [validateOpenShortEffect, resultWF]
      · exact resultWF_validateCloseShortEffect _ _ _ _

theorem resultWF_validateLimitOrder (order : Order) (position : Position)
    (snapshot : MarketSnapshot) :
    resultWF (validateLimitOrder order position snapshot) := by
  simp only [validateLimitOrder]
  cases order.effect
  · exact resultWF_validateOpenLongEffect _ _ _
  · exact resultWF_validateCloseLongEffect _ _ _
  · simp [validateOpenShortEffect, resultWF]
  · exact resultWF_validateCloseShortEffect _ _ _ _

theorem resultWF_validateStopOrderDirection (order : Order)
    (snapshot : MarketSnapshot) :
    resultWF (validateStopOrderDirection order snapshot) := by
  cases hget : mapGet snapshot.price order.symbol with
  | none => simp [validateStopOrderDirection, hget, resultWF]
  | some cp =>
    by_cases h0 : cp = 0
    · simp [validateStopOrderDirection, hget, h0, resultWF]
    · simp only [validateStopOrderDirection, hget, h0, if_false]
      cases order.effect <;> split_ifs <;> simp [resultWF]

/-- C6: `validateOrder` is a total function (the embedding terminates
and throws nothing); its result is either valid with no error or
invalid with exactly one typed error; purity is expressed by the
embedding's type (the position and snapshot are read-only inputs); and
a non-positive quantity always yields INVALID_QUANTITY, regardless of
order type and effect. -/
theorem C6_validateOrder_result (order : Order) (position : Position)
    (snapshot : MarketSnapshot) :
    resultWF (validateOrder order position snapshot) ∧
    (order.quantity ≤ 0 →
      validateOrder order position snapshot =
        ⟨false, some (OrderValidationError.INVALID_QUANTITY
          order.quantity)⟩) := by
  constructor
  · unfold validateOrder
    split_ifs with hqle
    · simp [resultWF]
    · cases order.type
      · exact resultWF_validateMarketOrder _ _ _
      · by_cases hv : (validatePriceField order.price).valid
        · simp only [hv, Bool.not_true, Bool.false_eq_true, if_false]
          exact resultWF_validateLimitOrder _ _ _
        · rw [Bool.not_eq_true] at hv
          simp only [hv, Bool.not_false, if_true]
          exact resultWF_validatePriceField _
      · by_cases hv : (validateStopPriceField order.stopPrice).valid
        · simp only [hv, Bool.not_true, Bool.false_eq_true, if_false]
          exact resultWF_validateStopOrderDirection _ _
        · rw [Bool.not_eq_true] at hv
          simp only [hv, Bool.not_false, if_true]
          exact resultWF_validateStopPriceField _
      · by_cases hv : (validatePriceField order.price).valid
        · simp only [hv, Bool.not_true, Bool.false_eq_true, if_false]
          by_cases hv2 : (validateStopPriceField order.stopPrice).valid
          · simp only [hv2, Bool.not_true, Bool.false_eq_true, if_false]
            exact resultWF_validateStopOrderDirection _ _
          · rw [Bool.not_eq_true] at hv2
            simp only [hv2, Bool.not_false, if_true]
            exact resultWF_validateStopPriceField _
        · rw [Bool.not_eq_true] at hv
          simp only [hv, Bool.not_false, if_true]
          exact resultWF_validatePriceField _
  · intro h
    simp [validateOrder, h]

/-- Order used in the C6 witness: MARKET order of quantity -1. -/
def ordC6 : Order :=
  ⟨"A", OrderEffect.OPEN_LONG, OrderType.MARKET, -1, none, none⟩

/-- Snapshot used in the C6 and C10 witnesses. -/
def snapC6 : MarketSnapshot := ⟨0, []⟩

/-- Witness for C6: concrete well-formed result and the
INVALID_QUANTITY outcome at quantity -1. -/
theorem C6_validateOrder_result_witness :
    resultWF (validateOrder ordC6 posEmpty snapC6) ∧
    validateOrder ordC6 posEmpty snapC6 =
      ⟨false, some (OrderValidationError.INVALID_QUANTITY (-1))⟩ :=
  ⟨(C6_validateOrder_result ordC6 posEmpty snapC6).1,
    (C6_validateOrder_result ordC6 posEmpty snapC6).2 (by norm_num [ordC6])⟩

/-! ## Claim C10 -/

/-- C10: for MARKET, STOP and STOP_LIMIT orders with positive quantity
(and positive stop/limit prices where required), an absent snapshot
entry and a stored price of exactly 0 are indistinguishable: both
yield MARKET_DATA_MISSING. -/
theorem C10_zero_price_market_data_missing (order : Order)
    (position : Position) (snapshot : MarketSnapshot)
    (hq : 0 < order.quantity)
    (hmiss : mapGet snapshot.price order.symbol = none ∨
      mapGet snapshot.price order.symbol = some 0) :
    (order.type = OrderType.MARKET →
      validateOrder order position snapshot =
        ⟨false, some (OrderValidationError.MARKET_DATA_MISSING
          order.symbol)⟩) ∧
    (order.type = OrderType.STOP →
      (∃ sp, order.stopPrice = some sp ∧ 0 < sp) →
      validateOrder order position snapshot =
        ⟨false, some (OrderValidationError.MARKET_DATA_MISSING
          order.symbol)⟩) ∧
    (order.type = OrderType.STOP_LIMIT →
      (∃ pr, order.price = some pr ∧ 0 < pr) →
      (∃ sp, order.stopPrice = some sp ∧ 0 < sp) →
      validateOrder order position snapshot =
        ⟨false, some (OrderValidationError.MARKET_DATA_MISSING
          order.symbol)⟩) := by
  have hnq : ¬ order.quantity ≤ 0 := not_le.mpr hq
  have hmarket : validateMarketOrder order position snapshot =
      ⟨false, some (OrderValidationError.MARKET_DATA_MISSING
        order.symbol)⟩ := by
    rcases hmiss with h | h <;> simp [validateMarketOrder, h]
  have hstopdir : validateStopOrderDirection order snapshot =
      ⟨false, some (OrderValidationError.MARKET_DATA_MISSING
        order.symbol)⟩ := by
    rcases hmiss with h | h <;> simp [validateStopOrderDirection, h]
  refine ⟨?_, ?_, ?_⟩
  · intro ht
    simp [validateOrder, hnq, ht, hmarket]
  · rintro ht ⟨sp, hsp, hsppos⟩
    simp [validateOrder, hnq, ht, validateStopPriceField, hsp,
      not_le.mpr hsppos, hstopdir]
  · rintro ht ⟨pr, hpr, hprpos⟩ ⟨sp, hsp, hsppos⟩
    simp [validateOrder, hnq, ht, validatePriceField,
      validateStopPriceField, hpr, hsp, not_le.mpr hprpos,
      not_le.mpr hsppos, hstopdir]

/-- Order used in the C10 witness: MARKET order of quantity 1 on a
symbol whose snapshot entry is exactly 0. -/
def ordC10 : Order :=
  ⟨"Z", OrderEffect.OPEN_LONG, OrderType.MARKET, 1, none, none⟩

/-- Snapshot storing a price of exactly 0 for the C10 witness. -/
def snapC10 : MarketSnapshot := ⟨0, [("Z", 0)]⟩

/-- Witness for C10: a stored price of 0 yields MARKET_DATA_MISSING. -/
theorem C10_zero_price_witness :
    (ordC10.type = OrderType.MARKET →
      validateOrder ordC10 posEmpty snapC10 =
        ⟨false, some (OrderValidationError.MARKET_DATA_MISSING
          ordC10.symbol)⟩) ∧
    (ordC10.type = OrderType.STOP →
      (∃ sp, ordC10.stopPrice = some sp ∧ 0 < sp) →
      validateOrder ordC10 posEmpty snapC10 =
        ⟨false, some (OrderValidationError.MARKET_DATA_MISSING
          ordC10.symbol)⟩) ∧
    (ordC10.type = OrderType.STOP_LIMIT →
      (∃ pr, ordC10.price = some pr ∧ 0 < pr) →
      (∃ sp, ordC10.stopPrice = some sp ∧ 0 < sp) →
      validateOrder ordC10 posEmpty snapC10 =
        ⟨false, some (OrderValidationError.MARKET_DATA_MISSING
          ordC10.symbol)⟩) :=
  C10_zero_price_market_data_missing ordC10 posEmpty snapC10
    (by norm_num [ordC10])
    (Or.inr (by norm_num [snapC10, ordC10, mapGet]))

/-! ## Claim C5 -/

/-- C5: for a STOP order (or a STOP_LIMIT order with positive limit
price) with positive quantity, positive stop price, and a nonzero
snapshot price for the symbol, validation succeeds exactly when the
stop price is strictly above the snapshot price for OPEN_LONG /
CLOSE_SHORT and strictly below it for CLOSE_LONG / OPEN_SHORT; the
failure carries INVALID_STOP_DIRECTION with expected direction ABOVE
respectively BELOW; and the result does not depend on the position
(cash or held quantities). -/
theorem C5_stop_direction (order : Order) (position : Position)
    (snapshot : MarketSnapshot) (sp cp : ℚ)
    (hq : 0 < order.quantity)
    (hsp : order.stopPrice = some sp) (hsppos : 0 < sp)
    (hcp : mapGet snapshot.price order.symbol = some cp) (hcp0 : cp ≠ 0)
    (htype : order.type = OrderType.STOP ∨
      (order.type = OrderType.STOP_LIMIT ∧
        ∃ pr, order.price = some pr ∧ 0 < pr)) :
    ((order.effect = OrderEffect.OPEN_LONG ∨
        order.effect = OrderEffect.CLOSE_SHORT) →
      (cp < sp → validateOrder order position snapshot = ⟨true, none⟩) ∧
      (sp ≤ cp →
        validateOrder order position snapshot =
          ⟨false, some (OrderValidationError.INVALID_STOP_DIRECTION sp cp
            ExpectedDirection.ABOVE)⟩)) ∧
    ((order.effect = OrderEffect.CLOSE_LONG ∨
        order.effect = OrderEffect.OPEN_SHORT) →
      (sp < cp → validateOrder order position snapshot = ⟨true, none⟩) ∧
      (cp ≤ sp →
        validateOrder order position snapshot =
          ⟨false, some (OrderValidationError.INVALID_STOP_DIRECTION sp cp
            ExpectedDirection.BELOW)⟩)) ∧
    (∀ position2 : Position,
      validateOrder order position2 snapshot =
        validateOrder order position snapshot) := by
  have hnq : ¬ order.quantity ≤ 0 := not_le.mpr hq
  have hreduce : ∀ pos2 : Position,
      validateOrder order pos2 snapshot =
        validateStopOrderDirection order snapshot := by
    intro pos2
    rcases htype with ht | ⟨ht, pr, hpr, hprpos⟩
    · simp [validateOrder, hnq, ht, validateStopPriceField, hsp,
        not_le.mpr hsppos]
    · simp [validateOrder, hnq, ht, validatePriceField,
        validateStopPriceField, hpr, hsp, not_le.mpr hsppos,
        not_le.mpr hprpos]
  refine ⟨?_, ?_, fun pos2 => by rw [hreduce pos2, hreduce position]⟩
  · intro heff
    constructor
    · intro hlt
      rw [hreduce position]
      rcases heff with he | he <;>
        simp [validateStopOrderDirection, hcp, hcp0, he, hsp,
          not_le.mpr hlt]
    · intro hle
      rw [hreduce position]
      rcases heff with he | he <;>
        simp [validateStopOrderDirection, hcp, hcp0, he, hsp, hle]
  · intro heff
    constructor
    · intro hlt
      rw [hreduce position]
      rcases heff with he | he <;>
        simp [validateStopOrderDirection, hcp, hcp0, he, hsp, ge_iff_le,
          not_le.mpr hlt]
    · intro hle
      rw [hreduce position]
      rcases heff with he | he <;>
        simp [validateStopOrderDirection, hcp, hcp0, he, hsp, ge_iff_le,
          hle]

/-- STOP order used in the C5 witness: stop-buy at 110. -/
def ordC5 : Order :=
  ⟨"S", OrderEffect.OPEN_LONG, OrderType.STOP, 1, none, some 110⟩

/-- Snapshot with price 100 for the C5 witness. -/
def snapC5 : MarketSnapshot := ⟨0, [("S", 100)]⟩

/-- Witness for C5: the concrete stop-buy at 110 against price 100. -/
theorem C5_stop_direction_witness :
    ((ordC5.effect = OrderEffect.OPEN_LONG ∨
        ordC5.effect = OrderEffect.CLOSE_SHORT) →
      ((100 : ℚ) < 110 →
        validateOrder ordC5 posEmpty snapC5 = ⟨true, none⟩) ∧
      ((110 : ℚ) ≤ 100 →
        validateOrder ordC5 posEmpty snapC5 =
          ⟨false, some (OrderValidationError.INVALID_STOP_DIRECTION 110 100
            ExpectedDirection.ABOVE)⟩)) ∧
    ((ordC5.effect = OrderEffect.CLOSE_LONG ∨
        ordC5.effect = OrderEffect.OPEN_SHORT) →
      ((110 : ℚ) < 100 →
        validateOrder ordC5 posEmpty snapC5 = ⟨true, none⟩) ∧
      ((100 : ℚ) ≤ 110 →
        validateOrder ordC5 posEmpty snapC5 =
          ⟨false, some (OrderValidationError.INVALID_STOP_DIRECTION 110 100
            ExpectedDirection.BELOW)⟩)) ∧
    (∀ position2 : Position,
      validateOrder ordC5 position2 snapC5 =
        validateOrder ordC5 posEmpty snapC5) :=
  C5_stop_direction ordC5 posEmpty snapC5 110 100 (by norm_num [ordC5])
    (by norm_num [ordC5]) (by norm_num)
    (by norm_num [snapC5, ordC5, mapGet]) (by norm_num)
    (Or.inl (by norm_num [ordC5]))

end TradingCore
